import Mathlib

/-!
# pamidicontrol: event routing, name index and LED feedback

A shallow embedding of `paclient.go` and `midiclient.go`.

* The audio server (the `sqp/pulseaudio` client the program calls) is an
  explicit state machine `Env σ`: reads are functions of the server state,
  a property write returns the next state and an optional error.
* Every function of the program that talks to the server returns, next to its
  result, the list of server calls it made, in order.
* MIDI output (the LED writes) is the list of messages sent.
* `float32` arithmetic is IEEE 754 binary32 with round-to-nearest-even on the
  non-negative values the program computes.
-/

namespace Pamidicontrol

/-! ## Go values -/

/-- The Go type `dbus.ObjectPath`, a string. -/
abbrev ObjectPath := String

/-- A Go `error` value, by its message. -/
abbrev Error := String

/-- The Go type `map[string][]dbus.ObjectPath` as an association list with one
entry per key. The order of the list is the order in which a `range` over the
map visits the keys, which Go leaves unspecified. -/
abbrev NameIndex := List (String × List ObjectPath)

/-- The Go expression `m[k]` in its two-result form: the value and whether the key is present. -/
def mapGet (m : NameIndex) (k : String) : Option (List ObjectPath) :=
  m.lookup k

/-- The Go statement `m[k] = v`: replaces the value of a present key, adds an absent one. -/
def mapSet (m : NameIndex) (k : String) (v : List ObjectPath) : NameIndex :=
  match mapGet m k with
  | some _ => m.map (fun e => if e.1 = k then (k, v) else e)
  | none => m ++ [(k, v)]

/-- The keys of a Go map. -/
def mapKeys (m : NameIndex) : List String :=
  m.map Prod.fst

/-! ## float32 -/

/-- A non-negative `float32` value: the rational `num / den` (with `den > 0`),
positive infinity, or not-a-number. The program only ever forms non-negative values. -/
inductive F32 where
  | finite (num den : Nat)
  | inf
  | nan
deriving DecidableEq, Repr

/-- Auxiliary for `log2Floor`: halves `n` until it is below 2, at most `fuel` times. -/
def log2Fuel : Nat → Nat → Nat
  | 0, _ => 0
  | fuel + 1, n => if n < 2 then 0 else log2Fuel fuel (n / 2) + 1

/-- The position of the highest set bit of `n` (0 for `n ≤ 1`). -/
def log2Floor (n : Nat) : Nat :=
  log2Fuel n n

/-- The quotient `n / d` rounded to the nearest integer, ties to the even one. -/
def divRoundEven (n d : Nat) : Nat :=
  let q := n / d
  let r := n % d
  if 2 * r < d then q else if d < 2 * r then q + 1 else if q % 2 = 0 then q else q + 1

/-- The binary32 value nearest to the rational `n / d` (`d > 0`), ties to even:
24 significant bits, the unit in the last place never below `2^-149`
(subnormal numbers), and infinity from `2^128` on. -/
def roundBinary32 (n d : Nat) : F32 :=
  if n = 0 then .finite 0 1
  else
    let ln := log2Floor n
    let ld := log2Floor d
    let t := 23 + ld + (if d * 2 ^ ln ≤ n * 2 ^ ld then 0 else 1)
    if ln ≤ t then
      let s := min (t - ln) 149
      .finite (divRoundEven (n * 2 ^ s) d) (2 ^ s)
    else
      let k := ln - t
      let v := divRoundEven n (d * 2 ^ k) * 2 ^ k
      if 2 ^ 128 ≤ v then .inf else .finite v 1

/-- The Go conversion `float32(n)` of an unsigned integer. -/
def F32.ofNat (n : Nat) : F32 :=
  roundBinary32 n 1

/-- The Go operator `/` on non-negative `float32` values. -/
def F32.div : F32 → F32 → F32
  | .nan, _ => .nan
  | _, .nan => .nan
  | .inf, .inf => .nan
  | .inf, .finite _ _ => .inf
  | .finite _ _, .inf => .finite 0 1
  | .finite a b, .finite c d =>
    if c = 0 then (if a = 0 then .nan else .inf)
    else roundBinary32 (a * d) (b * c)

/-- The Go operator `*` on non-negative `float32` values. -/
def F32.mul : F32 → F32 → F32
  | .nan, _ => .nan
  | _, .nan => .nan
  | .inf, .inf => .inf
  | .inf, .finite c _ => if c = 0 then .nan else .inf
  | .finite a _, .inf => if a = 0 then .nan else .inf
  | .finite a b, .finite c d => roundBinary32 (a * c) (b * d)

/-- The Go conversion `uint32(x)` of a `float32`: the fraction is discarded
(truncation towards zero). For a value `uint32` cannot represent (NaN, infinity,
`2^32` and above) Go leaves the result to the implementation: it is `undef`. -/
def F32.toUint32 (undef : Nat) : F32 → Nat
  | .finite n d => if n / d < 2 ^ 32 then n / d else undef
  | .inf => undef
  | .nan => undef

/-! ## The audio server -/

/-- Which proxy the program builds for a path: `c.Stream(path)` or `c.Device(path)`. -/
inductive ObjKind where
  | Stream
  | Device
deriving DecidableEq, Repr

/-- A `*pulseaudio.Object`: a proxy kind and the object path. -/
structure Obj where
  kind : ObjKind
  path : ObjectPath
deriving DecidableEq, Repr

/-- A value passed to `obj.Set`. -/
inductive Value where
  | uint32s (vs : List Nat)
  | bool (b : Bool)
deriving DecidableEq, Repr

/-- What the program runs against: the audio server behind the `pulseaudio`
client, with states `σ`, and the platform. -/
structure Env (σ : Type) where
  /-- The call `c.Core().ListPath(name)`. -/
  listPath : σ → String → Except Error (List ObjectPath)
  /-- The call `obj.MapString(prop)`. -/
  mapString : σ → Obj → String → Except Error (List (String × String))
  /-- The call `obj.ListUint32(prop)`. -/
  listUint32 : σ → Obj → String → Except Error (List Nat)
  /-- The call `obj.Bool(prop)`. -/
  getBool : σ → Obj → String → Except Error Bool
  /-- The call `obj.Set(prop, value)`: the next server state and the error, if any. -/
  setProp : σ → Obj → String → Value → σ × Option Error
  /-- The result of `uint32(x)` for a float `uint32` cannot represent. -/
  uint32Undef : Nat

deriving instance DecidableEq for Except

/-- One call made to the audio server, with what came back. -/
inductive Call where
  | ListPath (name : String) (res : Except Error (List ObjectPath))
  | MapString (obj : Obj) (prop : String) (res : Except Error (List (String × String)))
  | ListUint32 (obj : Obj) (prop : String) (res : Except Error (List Nat))
  | Bool (obj : Obj) (prop : String) (res : Except Error Bool)
  | Set (obj : Obj) (prop : String) (value : Value) (err : Option Error)
deriving DecidableEq

/-- The object a call writes to, for a `Set` call. -/
def Call.written : Call → Option Obj
  | .Set obj _ _ _ => some obj
  | _ => none

/-- The objects written to by a list of calls, in order. -/
def writtenObjs (calls : List Call) : List Obj :=
  calls.filterMap Call.written

/-! ## Configuration types -/

/-- Modelled from the spec: the declaration of `MidiMessageType` is not among the
sources; the spec gives the message types of an event pattern as ControlChange and NoteOn. -/
inductive MidiMessageType where
  | ControlChange
  | NoteOn
deriving DecidableEq, Repr

/-- Modelled from the spec: the declaration of `PulseAudioActionType` is not among
the sources; the spec gives the effects of a binding as VolumeChange and MuteToggle. -/
inductive PulseAudioActionType where
  | VolumeChange
  | MuteToggle
deriving DecidableEq, Repr

/-- Modelled from the spec: the declaration of `PulseAudioTargetType` is not among
the sources; the constants are the four the code compares `TargetType` with. -/
inductive PulseAudioTargetType where
  | Sink
  | Source
  | PlaybackStream
  | RecordStream
deriving DecidableEq, Repr

/-- Modelled from the spec: the struct `PulseAudioAction` is not among the sources;
the fields are the ones the code reads. -/
structure PulseAudioAction where
  ActionType : PulseAudioActionType
  TargetType : PulseAudioTargetType
  TargetName : String
deriving DecidableEq, Repr

/-- Modelled from the spec: the struct `MidiAction` is not among the sources; the
fields are the ones the code reads. `Channel` and `Controller` are compared with
`uint8` values, `MaxInputValue` is an unsigned integer. -/
structure MidiAction where
  ActionType : MidiMessageType
  Channel : Nat
  Controller : Nat
  MaxInputValue : Nat
  Action : PulseAudioAction
deriving DecidableEq, Repr

/-! ## paclient.go: the name index -/

/-- The struct `PAClient`: the four name-index maps. -/
structure PAClient where
  playbackStreamsByName : NameIndex
  recordStreamsByName : NameIndex
  sourcesByName : NameIndex
  sinksByName : NameIndex
deriving DecidableEq, Repr

/-- The function `NewPAClient`: four empty maps. -/
def NewPAClient : PAClient :=
  { playbackStreamsByName := [], recordStreamsByName := [], sourcesByName := [], sinksByName := [] }

/-- How a call of `RefreshStreams` ends. -/
inductive Outcome where
  | ok
  | returned (err : Error)
  | panicked (err : Error)
deriving DecidableEq, Repr

/-- The body shared by the four loops of `RefreshStreams` once the property list
is read: `if name, ok := props[key]; ok { if _, ok := m[name]; ok { m[name] =
append(m[name], path) } else { m[name] = []dbus.ObjectPath{path} } }`. -/
def indexPath (m : NameIndex) (props : List (String × String)) (key : String)
    (path : ObjectPath) : NameIndex :=
  match props.lookup key with
  | some name =>
    match mapGet m name with
    | some paths => mapSet m name (paths ++ [path])
    | none => mapSet m name [path]
  | none => m

/-- One of the four loops of `RefreshStreams` (lines 148-162, 169-184, 190-204,
210-224): they differ in the proxy kind, in the property key, and in what a failed
`PropertyList` read does, which the caller decides from the error returned here.
The result is the map built, or the error of the first failed read, and the calls made. -/
def indexLoop {σ : Type} (env : Env σ) (s : σ) (kind : ObjKind) (key : String) :
    List ObjectPath → NameIndex → Except Error NameIndex × List Call
  | [], m => (.ok m, [])
  | path :: rest, m =>
    match env.mapString s ⟨kind, path⟩ "PropertyList" with
    | .error err => (.error err, [.MapString ⟨kind, path⟩ "PropertyList" (.error err)])
    | .ok props =>
      let r := indexLoop env s kind key rest (indexPath m props key path)
      (r.1, .MapString ⟨kind, path⟩ "PropertyList" (.ok props) :: r.2)

/-- The client, the outcome and the server calls of a `RefreshStreams` call. -/
structure RefreshResult where
  client : PAClient
  outcome : Outcome
  calls : List Call
deriving DecidableEq

/-- The method `PAClient.RefreshStreams`. -/
def RefreshStreams {σ : Type} (env : Env σ) (s : σ) (c : PAClient) : RefreshResult :=
  match env.listPath s "PlaybackStreams" with
  | .error err => ⟨c, .returned err, [.ListPath "PlaybackStreams" (.error err)]⟩
  | .ok streams =>
    let k1 := [Call.ListPath "PlaybackStreams" (.ok streams)]
    match indexLoop env s .Stream "application.name" streams [] with
    | (.error err, l1) => ⟨c, .returned err, k1 ++ l1⟩
    | (.ok playbackStreamsByName, l1) =>
      match env.listPath s "RecordStreams" with
      | .error err => ⟨c, .returned err, k1 ++ l1 ++ [.ListPath "RecordStreams" (.error err)]⟩
      | .ok streams2 =>
        let k2 := k1 ++ l1 ++ [Call.ListPath "RecordStreams" (.ok streams2)]
        match indexLoop env s .Stream "application.name" streams2 [] with
        | (.error err, l2) => ⟨c, .returned err, k2 ++ l2⟩
        | (.ok recordStreamsByName, l2) =>
          match env.listPath s "Sinks" with
          | .error err => ⟨c, .returned err, k2 ++ l2 ++ [.ListPath "Sinks" (.error err)]⟩
          | .ok sinks =>
            let k3 := k2 ++ l2 ++ [Call.ListPath "Sinks" (.ok sinks)]
            match indexLoop env s .Device "device.description" sinks [] with
            | (.error err, l3) => ⟨c, .panicked err, k3 ++ l3⟩
            | (.ok sinksByName, l3) =>
              match env.listPath s "Sources" with
              | .error err => ⟨c, .returned err, k3 ++ l3 ++ [.ListPath "Sources" (.error err)]⟩
              | .ok sources =>
                let k4 := k3 ++ l3 ++ [Call.ListPath "Sources" (.ok sources)]
                match indexLoop env s .Device "device.description" sources [] with
                | (.error err, l4) => ⟨c, .panicked err, k4 ++ l4⟩
                | (.ok sourcesByName, l4) =>
                  ⟨{ playbackStreamsByName := playbackStreamsByName,
                     recordStreamsByName := recordStreamsByName,
                     sourcesByName := sourcesByName,
                     sinksByName := sinksByName }, .ok, k4 ++ l4⟩

/-! ## paclient.go: the effects -/

/-- The lookup that opens both `ProcessVolumeAction` (lines 237-270) and
`ProcessMuteAction` (lines 307-339): four `if action.TargetType == ...` blocks, each
appending a proxy for every path stored under the target name. -/
def targetObjects (c : PAClient) (action : PulseAudioAction) : List Obj :=
  let objs : List Obj := []
  let objs :=
    if action.TargetType = .Sink then
      match mapGet c.sinksByName action.TargetName with
      | some sinkPaths => objs ++ sinkPaths.map (fun p => ⟨.Device, p⟩)
      | none => objs
    else objs
  let objs :=
    if action.TargetType = .Source then
      match mapGet c.sourcesByName action.TargetName with
      | some sourcePaths => objs ++ sourcePaths.map (fun p => ⟨.Device, p⟩)
      | none => objs
    else objs
  let objs :=
    if action.TargetType = .PlaybackStream then
      match mapGet c.playbackStreamsByName action.TargetName with
      | some streamPaths => objs ++ streamPaths.map (fun p => ⟨.Stream, p⟩)
      | none => objs
    else objs
  let objs :=
    if action.TargetType = .RecordStream then
      match mapGet c.recordStreamsByName action.TargetName with
      | some streamPaths => objs ++ streamPaths.map (fun p => ⟨.Stream, p⟩)
      | none => objs
    else objs
  objs

/-- The server state, the error returned and the server calls of one effect. -/
structure ProcessResult (σ : Type) where
  state : σ
  err : Option Error
  calls : List Call
deriving DecidableEq

/-- The vector `vol` built at lines 274-281: `newVol` once per channel read, empty
when the `Channels` read fails. -/
def volumeVector (res : Except Error (List Nat)) (newVol : Nat) : List Nat :=
  match res with
  | .error _ => []
  | .ok channels => channels.map (fun _ => newVol)

/-- The loop `for _, obj := range objs` of `ProcessVolumeAction` (lines 273-287). -/
def volumeLoop {σ : Type} (env : Env σ) (newVol : Nat) : List Obj → σ → ProcessResult σ
  | [], s => ⟨s, none, []⟩
  | obj :: rest, s =>
    let res := env.listUint32 s obj "Channels"
    let vol := volumeVector res newVol
    match env.setProp s obj "Volume" (.uint32s vol) with
    | (s1, some err) =>
      ⟨s1, some err, [.ListUint32 obj "Channels" res, .Set obj "Volume" (.uint32s vol) (some err)]⟩
    | (s1, none) =>
      let r := volumeLoop env newVol rest s1
      ⟨r.state, r.err,
        .ListUint32 obj "Channels" res :: .Set obj "Volume" (.uint32s vol) none :: r.calls⟩

/-- The value `newVol` of `ProcessVolumeAction` (lines 234-235):
`uint32(volume * float32(pa100perc))` with `pa100perc = 65535`. -/
def newVolume {σ : Type} (env : Env σ) (volume : F32) : Nat :=
  F32.toUint32 env.uint32Undef (F32.mul volume (F32.ofNat 65535))

/-- The method `PAClient.ProcessVolumeAction`. -/
def ProcessVolumeAction {σ : Type} (env : Env σ) (c : PAClient) (action : PulseAudioAction)
    (volume : F32) (s : σ) : ProcessResult σ :=
  let newVol := newVolume env volume
  let objs := targetObjects c action
  if objs.length > 0 then volumeLoop env newVol objs s
  else ⟨s, none, []⟩

/-- The loop `for _, obj := range objs` of `ProcessMuteAction` (lines 342-347):
`mute, _ := obj.Bool("Mute")` leaves `mute` false when the read fails. -/
def muteLoop {σ : Type} (env : Env σ) : List Obj → σ → ProcessResult σ
  | [], s => ⟨s, none, []⟩
  | obj :: rest, s =>
    let res := env.getBool s obj "Mute"
    let mute := match res with
      | .ok b => b
      | .error _ => false
    match env.setProp s obj "Mute" (.bool (!mute)) with
    | (s1, some err) =>
      ⟨s1, some err, [.Bool obj "Mute" res, .Set obj "Mute" (.bool (!mute)) (some err)]⟩
    | (s1, none) =>
      let r := muteLoop env rest s1
      ⟨r.state, r.err, .Bool obj "Mute" res :: .Set obj "Mute" (.bool (!mute)) none :: r.calls⟩

/-- The method `PAClient.ProcessMuteAction`. -/
def ProcessMuteAction {σ : Type} (env : Env σ) (c : PAClient) (action : PulseAudioAction)
    (s : σ) : ProcessResult σ :=
  let objs := targetObjects c action
  if objs.length > 0 then muteLoop env objs s
  else ⟨s, none, []⟩

/-! ## midiclient.go: the reader callback of `MidiClient.Run` -/

/-- A MIDI message handed to the reader callback: the two types the callback
switches on, and any other message. -/
inductive Message where
  | ControlChange (channel controller value : Nat)
  | NoteOn (channel key velocity : Nat)
  | other
deriving DecidableEq, Repr

/-- Which method of `PAClient` the callback called. -/
inductive Effect where
  | volume (perc : F32)
  | mute
deriving DecidableEq, Repr

/-- One call of `ProcessVolumeAction` or `ProcessMuteAction` made by the callback:
the binding it was made for, the method (with the fraction passed), and what the
method returned and did. The callback logs a returned error and goes on. -/
structure Invocation where
  binding : MidiAction
  effect : Effect
  err : Option Error
  calls : List Call
deriving DecidableEq

/-- The server state after the callback and the calls it made, in order. -/
structure DispatchResult (σ : Type) where
  state : σ
  invocations : List Invocation
deriving DecidableEq

/-- The value `perc` of line 130:
`float32(midiMessage.Value()) / float32(action.MaxInputValue)`. -/
def fraction (value maxInputValue : Nat) : F32 :=
  F32.div (F32.ofNat value) (F32.ofNat maxInputValue)

/-- The loop of `case channel.ControlChange` (lines 117-137). -/
def controlChangeLoop {σ : Type} (env : Env σ) (c : PAClient) (channel controller value : Nat) :
    List MidiAction → σ → DispatchResult σ
  | [], s => ⟨s, []⟩
  | action :: rest, s =>
    if action.ActionType ≠ .ControlChange then
      controlChangeLoop env c channel controller value rest s
    else if action.Channel ≠ channel then
      controlChangeLoop env c channel controller value rest s
    else if action.Controller ≠ controller then
      controlChangeLoop env c channel controller value rest s
    else
      let perc := fraction value action.MaxInputValue
      if action.Action.ActionType = .VolumeChange then
        let r := ProcessVolumeAction env c action.Action perc s
        let d := controlChangeLoop env c channel controller value rest r.state
        ⟨d.state, ⟨action, .volume perc, r.err, r.calls⟩ :: d.invocations⟩
      else
        controlChangeLoop env c channel controller value rest s

/-- The loop of `case channel.NoteOn` (lines 142-160). -/
def noteOnLoop {σ : Type} (env : Env σ) (c : PAClient) (channel key : Nat) :
    List MidiAction → σ → DispatchResult σ
  | [], s => ⟨s, []⟩
  | action :: rest, s =>
    if action.ActionType ≠ .NoteOn then
      noteOnLoop env c channel key rest s
    else if action.Channel ≠ channel then
      noteOnLoop env c channel key rest s
    else if action.Controller ≠ key then
      noteOnLoop env c channel key rest s
    else if action.Action.ActionType = .VolumeChange then
      let r := ProcessMuteAction env c action.Action s
      let d := noteOnLoop env c channel key rest r.state
      ⟨d.state, ⟨action, .mute, r.err, r.calls⟩ :: d.invocations⟩
    else
      noteOnLoop env c channel key rest s

/-- The reader callback of `MidiClient.Run` (lines 113-163): the type switch on the message. -/
def onMessage {σ : Type} (env : Env σ) (c : PAClient) (MidiActions : List MidiAction)
    (msg : Message) (s : σ) : DispatchResult σ :=
  match msg with
  | .ControlChange channel controller value =>
    controlChangeLoop env c channel controller value MidiActions s
  | .NoteOn channel key _ =>
    noteOnLoop env c channel key MidiActions s
  | .other => ⟨s, []⟩

/-! ## LED feedback

The LED writes go through `c.wr`, the `writer.Writer` of the gomidi library that
`MidiClient.Run` makes at line 109. The writer is taken to be there (`c.midiClient`
and `c.wr` are set), and a message it passes on to reach the controller: the code
does not look at what a write returns. -/

/-- A message for the MIDI output. -/
inductive MidiOut where
  | NoteOn (key velocity : Nat)
  | NoteOff (key : Nat)
deriving DecidableEq, Repr

/-- The key a MIDI message addresses. -/
def MidiOut.key : MidiOut → Nat
  | .NoteOn key _ => key
  | .NoteOff key => key

/-- Whether a message switches its note on: a NoteOn with a velocity above 0 does,
a NoteOn with velocity 0 and a NoteOff switch it off. -/
def MidiOut.lights : MidiOut → Bool
  | .NoteOn _ velocity => decide (0 < velocity)
  | .NoteOff _ => false

/-- The note state the gomidi writer keeps for its channel: for every key, whether
the writer has switched the note on and not off since. -/
abbrev NoteState := Nat → Bool

/-- The method `Write` of gomidi's `writer.Writer`, an external library, with the note
consolidation it has by default and the program leaves on: a NoteOn (velocity above
0) for a note the writer has as running is dropped, a NoteOff (or NoteOn with
velocity 0) for a note it does not have as running is dropped, and any other note
message is passed on and recorded in the note state. The result is the note state
after the call and the messages passed on. -/
def writerWrite (notes : NoteState) : MidiOut → NoteState × List MidiOut
  | .NoteOn key velocity =>
    if 0 < velocity ∧ notes key = true then (notes, [])
    else if velocity = 0 ∧ notes key = false then (notes, [])
    else (Function.update notes key (decide (0 < velocity)), [.NoteOn key velocity])
  | .NoteOff key =>
    if notes key = false then (notes, [])
    else (Function.update notes key false, [.NoteOff key])

/-- The method `MidiClient.LedOn`: `writer.NoteOn(c.wr, key, 127)`, which writes
`NoteOn(key, 127)` to the writer. -/
def LedOn (notes : NoteState) (key : Nat) : NoteState × List MidiOut :=
  writerWrite notes (.NoteOn key 127)

/-- The method `MidiClient.LedOff`: `c.wr.Write(writer.Channel(c.wr).NoteOff(key))`. -/
def LedOff (notes : NoteState) (key : Nat) : NoteState × List MidiOut :=
  writerWrite notes (.NoteOff key)

/-- The table `muteKeys`. -/
def muteKeys : List (String × Nat) :=
  [("spotify", 1), ("Firefox", 4), ("Chromium", 7),
   ("Focusrite Scarlett 2i2 2nd Gen Analog Stereo", 10),
   ("Webcam C270 Mono", 13), ("Jabra Link 380 Mono", 16)]

/-- The table `recordKeys`. -/
def recordKeys : List (String × Nat) :=
  [("spotify", 3), ("Firefox", 6), ("Chromium", 9),
   ("Focusrite Scarlett 2i2 2nd Gen Analog Stereo", 12),
   ("Webcam C270 Mono", 15), ("Jabra Link 380 Mono", 18)]

/-- The method `PAClient.recordUpdated`. -/
def recordUpdated (notes : NoteState) (name : String) (present : Bool) :
    NoteState × List MidiOut :=
  match recordKeys.lookup name with
  | some key => if present then LedOn notes key else LedOff notes key
  | none => (notes, [])

/-- The method `PAClient.muteUpdated`. -/
def muteUpdated (notes : NoteState) (name : String) (mute : Bool) :
    NoteState × List MidiOut :=
  match muteKeys.lookup name with
  | some key => if mute then LedOn notes key else LedOff notes key
  | none => (notes, [])

/-- A loop `for name, _ := range m { c.recordUpdated(name, present) }` of
`UpdateRecordingLeds`, the keys visited in the order of the list. -/
def recordLoop (present : Bool) : List String → NoteState → NoteState × List MidiOut
  | [], notes => (notes, [])
  | name :: rest, notes =>
    let r := recordUpdated notes name present
    let t := recordLoop present rest r.1
    (t.1, r.2 ++ t.2)

/-- The orders in which the five `range` loops of `UpdateRecordingLeds` visit the
keys of `recordKeys` and of the four index maps. -/
structure KeyOrders where
  record : List String
  playbackStreams : List String
  recordStreams : List String
  sinks : List String
  sources : List String

/-- An order of visit is admissible when each loop visits every key of its map once. -/
def KeyOrders.Admissible (o : KeyOrders) (c : PAClient) : Prop :=
  o.record.Perm (recordKeys.map Prod.fst) ∧
  o.playbackStreams.Perm (mapKeys c.playbackStreamsByName) ∧
  o.recordStreams.Perm (mapKeys c.recordStreamsByName) ∧
  o.sinks.Perm (mapKeys c.sinksByName) ∧
  o.sources.Perm (mapKeys c.sourcesByName)

/-- The method `PAClient.UpdateRecordingLeds`, its loops visiting the keys in the
orders `o`: the note state of the writer after the call and the messages passed on. -/
def UpdateRecordingLeds (o : KeyOrders) (notes : NoteState) : NoteState × List MidiOut :=
  let r0 := recordLoop false o.record notes
  let r1 := recordLoop true o.playbackStreams r0.1
  let r2 := recordLoop true o.recordStreams r1.1
  let r3 := recordLoop true o.sinks r2.1
  let r4 := recordLoop true o.sources r3.1
  (r4.1, r0.2 ++ r1.2 ++ r2.2 ++ r3.2 ++ r4.2)

/-- The inner loop of `PlaybackStreamRemoved` (lines 54-59) for one entry `name`,
`paths` of the map: `rest` is what is left of `paths` to visit. -/
def removedInner (name : String) (paths : List ObjectPath) (path : ObjectPath) :
    List ObjectPath → NoteState → NoteState × List MidiOut
  | [], notes => (notes, [])
  | p :: rest, notes =>
    if p = path ∧ paths.length = 1 then
      let r := recordUpdated notes name false
      let u := muteUpdated r.1 name false
      let t := removedInner name paths path rest u.1
      (t.1, r.2 ++ u.2 ++ t.2)
    else removedInner name paths path rest notes

/-- The LED writes of `PlaybackStreamRemoved` (lines 53-60), the map visited in list order. -/
def removedLeds (path : ObjectPath) : NameIndex → NoteState → NoteState × List MidiOut
  | [], notes => (notes, [])
  | e :: rest, notes =>
    let r := removedInner e.1 e.2 path e.2 notes
    let t := removedLeds path rest r.1
    (t.1, r.2 ++ t.2)

/-- Something the program sends out: a MIDI message or a call to the audio server. -/
inductive Event where
  | midi (m : MidiOut)
  | server (call : Call)
deriving DecidableEq

/-- What `PlaybackStreamRemoved` leaves and sends: the refresh (client, outcome), the
note state of the writer, and everything sent, in order. -/
structure RemovedResult where
  refresh : RefreshResult
  notes : NoteState
  events : List Event

/-- The method `PAClient.PlaybackStreamRemoved`: the LED writes, then
`c.RefreshStreams()`, whose returned error is dropped. -/
def PlaybackStreamRemoved {σ : Type} (env : Env σ) (s : σ) (c : PAClient) (path : ObjectPath)
    (notes : NoteState) : RemovedResult :=
  let leds := removedLeds path c.playbackStreamsByName notes
  let r := RefreshStreams env s c
  ⟨r, leds.1, leds.2.map Event.midi ++ r.calls.map Event.server⟩

/-- Modelled from the spec: the controller is not part of the sources; an LED is
lit by a NoteOn (velocity above 0) for its key and dark after a NoteOff for it. The
state maps an LED identifier to whether it is lit. -/
def ledStep (leds : Nat → Bool) (m : MidiOut) : Nat → Bool :=
  Function.update leds m.key m.lights

/-- The LED state after a list of messages. -/
def ledsAfter (leds : Nat → Bool) (out : List MidiOut) : Nat → Bool :=
  out.foldl ledStep leds

/-! ## Names used in the statements -/

/-- The index map of a target category. -/
def categoryIndex (c : PAClient) : PulseAudioTargetType → NameIndex
  | .Sink => c.sinksByName
  | .Source => c.sourcesByName
  | .PlaybackStream => c.playbackStreamsByName
  | .RecordStream => c.recordStreamsByName

/-- The references stored under a name in the index map of a category. -/
def references (c : PAClient) (t : PulseAudioTargetType) (name : String) : List ObjectPath :=
  (mapGet (categoryIndex c t) name).getD []

/-- The proxy kind of a category: devices for sinks and sources, streams otherwise. -/
def categoryKind : PulseAudioTargetType → ObjKind
  | .Sink => .Device
  | .Source => .Device
  | .PlaybackStream => .Stream
  | .RecordStream => .Stream

/-- The display name of an object: the value of `key` in its `PropertyList`, when
the read succeeds and the key is present. -/
def displayName {σ : Type} (env : Env σ) (s : σ) (kind : ObjKind) (key : String)
    (path : ObjectPath) : Option String :=
  match env.mapString s ⟨kind, path⟩ "PropertyList" with
  | .ok props => props.lookup key
  | .error _ => none

/-- The index entry a list of enumerated paths gives a name: the paths carrying the
name, in enumeration order, and no entry when there is none. -/
def entryOf {σ : Type} (env : Env σ) (s : σ) (kind : ObjKind) (key : String)
    (paths : List ObjectPath) (name : String) : Option (List ObjectPath) :=
  let l := paths.filter (fun p => displayName env s kind key p = some name)
  if l = [] then none else some l

/-- The index entry of a name after more paths are indexed: the old entry when no
new path carries the name, else the old paths followed by the new ones. -/
def mergeEntry (old : Option (List ObjectPath)) (new : List ObjectPath) :
    Option (List ObjectPath) :=
  if new = [] then old else some (old.getD [] ++ new)

/-- A map is the index of a list of enumerated paths: it has one entry per name, the
entry of every name is the one `entryOf` gives, and so every entry of the map is the
non-empty list of the enumerated paths that carry its name, in enumeration order. -/
def IsIndexOf {σ : Type} (env : Env σ) (s : σ) (kind : ObjKind) (key : String)
    (paths : List ObjectPath) (m : NameIndex) : Prop :=
  (mapKeys m).Nodup ∧
  (∀ name, mapGet m name = entryOf env s kind key paths name) ∧
  (∀ name l, (name, l) ∈ m →
    l ≠ [] ∧ l = paths.filter (fun p => displayName env s kind key p = some name))

/-- What failed in a server call, if the call failed while reading: an enumeration
(no proxy kind) or the property read of a proxy of some kind, and the error. -/
def Call.failure : Call → Option (Option ObjKind × Error)
  | .ListPath _ (.error e) => some (none, e)
  | .MapString obj _ (.error e) => some (some obj.kind, e)
  | _ => none

/-- How `RefreshStreams` ends after a failed read: it returns the error of a failed
enumeration or stream read, and panics with the error of a failed device read. -/
def outcomeOfFailure : Option ObjKind × Error → Outcome
  | (none, e) => .returned e
  | (some .Stream, e) => .returned e
  | (some .Device, e) => .panicked e

/-- A binding's pattern matches a message: same type, same channel, same
controller (ControlChange) or key (NoteOn). -/
def patternMatches (b : MidiAction) : Message → Prop
  | .ControlChange channel controller _ =>
    b.ActionType = .ControlChange ∧ b.Channel = channel ∧ b.Controller = controller
  | .NoteOn channel key _ =>
    b.ActionType = .NoteOn ∧ b.Channel = channel ∧ b.Controller = key
  | .other => False

/-- The method a binding's effect stands for was called for the binding:
`ProcessVolumeAction` for VolumeChange, `ProcessMuteAction` for MuteToggle. -/
def ownEffectInvoked (b : MidiAction) (invs : List Invocation) : Prop :=
  ∃ i ∈ invs, i.binding = b ∧
    match b.Action.ActionType with
    | .VolumeChange => ∃ perc, i.effect = .volume perc
    | .MuteToggle => i.effect = .mute

/-- One turn of the loop of `ProcessVolumeAction` as the server sees it: the object,
what the `Channels` read returned and what the `Volume` write returned. -/
structure VolumeStep where
  obj : Obj
  channels : Except Error (List Nat)
  err : Option Error

/-- The number of channels a `Channels` read reports, 0 when the read failed. -/
def channelCount : Except Error (List Nat) → Nat
  | .ok channels => channels.length
  | .error _ => 0

/-- The two calls of one turn of the loop of `ProcessVolumeAction`: the `Channels`
read, then the write of `newVol` repeated once per channel read. -/
def VolumeStep.calls (newVol : Nat) (st : VolumeStep) : List Call :=
  [.ListUint32 st.obj "Channels" st.channels,
   .Set st.obj "Volume" (.uint32s (List.replicate (channelCount st.channels) newVol)) st.err]

/-- The steps are the turns the loop of `ProcessVolumeAction` makes from the server
state `s`, ending in the state `s1`: every turn reads `Channels` in the state it
finds and gets what the server answers there, writes the vector to `Volume` and gets
what the server answers to that write, and the next turn starts in the state the
write left. -/
def VolumeRun {σ : Type} (env : Env σ) (newVol : Nat) : σ → List VolumeStep → σ → Prop
  | s, [], s1 => s1 = s
  | s, st :: rest, s1 =>
    st.channels = env.listUint32 s st.obj "Channels" ∧
    st.err = (env.setProp s st.obj "Volume"
      (.uint32s (List.replicate (channelCount st.channels) newVol))).2 ∧
    VolumeRun env newVol (env.setProp s st.obj "Volume"
      (.uint32s (List.replicate (channelCount st.channels) newVol))).1 rest s1

/-- The steps are those of a whole call of `ProcessVolumeAction` on the objects
`objs` that returned `err`: without an error there is one step for every object, in
order, and no write failed; with an error the steps are those of the first objects, in
order, the last step is the write that returned the error, and no write before it
failed. -/
def StepsUpToFailure (objs : List Obj) (err : Option Error) (steps : List VolumeStep) : Prop :=
  (err = none → steps.map VolumeStep.obj = objs ∧ ∀ st ∈ steps, st.err = none) ∧
  (∀ e, err = some e → ∃ before last, steps = before ++ [last] ∧ last.err = some e ∧
    (∀ st ∈ before, st.err = none) ∧ steps.map VolumeStep.obj <+: objs)

/-- A call is a write that failed. -/
def Call.failedWrite : Call → Prop
  | .Set _ _ _ (some _) => True
  | _ => False

/-- The writes of an effect stop at the first failure: the objects written to are
the first ones of `objs`, in order; without an error all of `objs` are written and no
write failed; with an error the last call is the write that returned it and no write
before it failed. -/
def StopsAtFirstFailure {σ : Type} (objs : List Obj) (r : ProcessResult σ) : Prop :=
  writtenObjs r.calls <+: objs ∧
  (r.err = none → writtenObjs r.calls = objs ∧ ∀ call ∈ r.calls, ¬ call.failedWrite) ∧
  (∀ e, r.err = some e → ∃ pre obj prop v,
    r.calls = pre ++ [.Set obj prop v (some e)] ∧ ∀ call ∈ pre, ¬ call.failedWrite)

/-- The writer fed a list of messages, one `Write` after the other. -/
def writeAll : NoteState → List MidiOut → NoteState × List MidiOut
  | notes, [] => (notes, [])
  | notes, m :: rest =>
    let r := writerWrite notes m
    let t := writeAll r.1 rest
    (t.1, r.2 ++ t.2)

/-- The message `recordUpdated` hands to the writer, if the name has an activity LED. -/
def recordRequests (name : String) (present : Bool) : List MidiOut :=
  match recordKeys.lookup name with
  | some key => if present then [.NoteOn key 127] else [.NoteOff key]
  | none => []

/-- The message `muteUpdated` hands to the writer, if the name has a mute LED. -/
def muteRequests (name : String) (mute : Bool) : List MidiOut :=
  match muteKeys.lookup name with
  | some key => if mute then [.NoteOn key 127] else [.NoteOff key]
  | none => []

/-- The messages `UpdateRecordingLeds` hands to the writer, in order. -/
def sweepRequests (o : KeyOrders) : List MidiOut :=
  o.record.flatMap (fun name => recordRequests name false) ++
    (o.playbackStreams ++ o.recordStreams ++ o.sinks ++ o.sources).flatMap
      (fun name => recordRequests name true)

/-- The messages `PlaybackStreamRemoved` hands to the writer, in order. -/
def removedRequests (m : NameIndex) (path : ObjectPath) : List MidiOut :=
  m.flatMap (fun e =>
    e.2.flatMap (fun p =>
      if p = path ∧ e.2.length = 1 then recordRequests e.1 false ++ muteRequests e.1 false
      else []))

/-- A name is a key of at least one of the four index maps. -/
def inIndex (c : PAClient) (name : String) : Prop :=
  name ∈ mapKeys c.playbackStreamsByName ∨ name ∈ mapKeys c.recordStreamsByName ∨
    name ∈ mapKeys c.sinksByName ∨ name ∈ mapKeys c.sourcesByName

/-- All server calls of a dispatch, in order. -/
def DispatchResult.calls {σ : Type} (d : DispatchResult σ) : List Call :=
  d.invocations.flatMap (fun i => i.calls)

/-! ## Example inputs -/

/-- An example server with no state of its own: three playback streams (two of
Firefox, one of spotify), two record streams (one without an application name), two
sinks called Speakers and one source, all stereo and unmuted. Enumerations named in
`failList`, property-list reads of paths in `failRead` and writes to paths in
`failWrite` fail. -/
def demoEnv (failList : List String) (failRead failWrite : List ObjectPath) : Env Unit where
  listPath := fun _ name =>
    if name ∈ failList then .error "enumeration failed"
    else if name = "PlaybackStreams" then .ok ["/stream0", "/stream1", "/stream2"]
    else if name = "RecordStreams" then .ok ["/rec0", "/rec1"]
    else if name = "Sinks" then .ok ["/sink0", "/sink1"]
    else if name = "Sources" then .ok ["/source0"]
    else .ok []
  mapString := fun _ obj _ =>
    if obj.path ∈ failRead then .error "read failed"
    else if obj.path = "/stream0" then .ok [("application.name", "Firefox")]
    else if obj.path = "/stream1" then .ok [("application.name", "spotify")]
    else if obj.path = "/stream2" then .ok [("application.name", "Firefox")]
    else if obj.path = "/rec0" then .ok [("media.name", "capture")]
    else if obj.path = "/rec1" then .ok [("application.name", "Chromium")]
    else if obj.path = "/sink0" then .ok [("device.description", "Speakers")]
    else if obj.path = "/sink1" then .ok [("device.description", "Speakers")]
    else if obj.path = "/source0" then .ok [("device.description", "Webcam C270 Mono")]
    else .error "no such object"
  listUint32 := fun _ _ _ => .ok [1, 2]
  getBool := fun _ _ _ => .ok false
  setProp := fun s obj _ _ => if obj.path ∈ failWrite then (s, some "write failed") else (s, none)
  uint32Undef := 0

/-- The index of the example server. -/
def demoClient : PAClient :=
  { playbackStreamsByName := [("Firefox", ["/stream0", "/stream2"]), ("spotify", ["/stream1"])],
    recordStreamsByName := [("Chromium", ["/rec1"])],
    sourcesByName := [("Webcam C270 Mono", ["/source0"])],
    sinksByName := [("Speakers", ["/sink0", "/sink1"])] }

/-- An index left over from an earlier refresh of some other server. -/
def staleClient : PAClient :=
  { playbackStreamsByName := [("mpv", ["/stream9"])],
    recordStreamsByName := [],
    sourcesByName := [],
    sinksByName := [("Headphones", ["/sink9"])] }

/-- Orders of visit for the example index, none of them the order of the lists. -/
def demoOrders : KeyOrders :=
  { record := ["Jabra Link 380 Mono", "Webcam C270 Mono",
               "Focusrite Scarlett 2i2 2nd Gen Analog Stereo", "Chromium", "Firefox", "spotify"],
    playbackStreams := ["spotify", "Firefox"],
    recordStreams := ["Chromium"],
    sinks := ["Speakers"],
    sources := ["Webcam C270 Mono"] }

/-- An example binding: ControlChange on channel 0, controller 1, range 0..127. -/
def demoBinding (effect : PulseAudioActionType) (target : PulseAudioTargetType) (name : String) :
    MidiAction :=
  { ActionType := .ControlChange, Channel := 0, Controller := 1, MaxInputValue := 127,
    Action := { ActionType := effect, TargetType := target, TargetName := name } }

/-- An example binding: NoteOn on channel 0, key 1. -/
def demoNoteBinding (effect : PulseAudioActionType) (target : PulseAudioTargetType)
    (name : String) : MidiAction :=
  { ActionType := .NoteOn, Channel := 0, Controller := 1, MaxInputValue := 127,
    Action := { ActionType := effect, TargetType := target, TargetName := name } }

/-! ## Dispatch: which bindings get an effect -/

theorem controlChangeLoop_mem {σ : Type} (env : Env σ) (c : PAClient) (ch ctl v : Nat)
    (actions : List MidiAction) (s : σ) (i : Invocation)
    (hi : i ∈ (controlChangeLoop env c ch ctl v actions s).invocations) :
    i.binding ∈ actions ∧ i.binding.ActionType = .ControlChange ∧ i.binding.Channel = ch ∧
      i.binding.Controller = ctl ∧ i.binding.Action.ActionType = .VolumeChange ∧
      i.effect = .volume (fraction v i.binding.MaxInputValue) := by
  induction actions generalizing s with
  | nil => simp [controlChangeLoop] at hi
  | cons a rest ih =>
    unfold controlChangeLoop at hi
    split_ifs at hi with h1 h2 h3 h4
    · have := ih s hi; simp [this]
    · have := ih s hi; simp [this]
    · have := ih s hi; simp [this]
    · simp only [List.mem_cons] at hi
      rcases hi with rfl | hi
      · simp only [ne_eq, not_not] at h1 h2 h3
        simp [h1, h2, h3, h4]
      · have := ih _ hi; simp [this]
    · have := ih s hi; simp [this]

theorem controlChangeLoop_invokes {σ : Type} (env : Env σ) (c : PAClient) (ch ctl v : Nat)
    (actions : List MidiAction) (s : σ) (b : MidiAction) (hb : b ∈ actions)
    (h1 : b.ActionType = .ControlChange) (h2 : b.Channel = ch) (h3 : b.Controller = ctl)
    (h4 : b.Action.ActionType = .VolumeChange) :
    ∃ i ∈ (controlChangeLoop env c ch ctl v actions s).invocations,
      i.binding = b ∧ i.effect = .volume (fraction v b.MaxInputValue) := by
  induction actions generalizing s with
  | nil => simp at hb
  | cons a rest ih =>
    unfold controlChangeLoop
    rcases List.mem_cons.mp hb with rfl | hb
    · simp [h1, h2, h3, h4]
    · split_ifs
      · exact ih s hb
      · exact ih s hb
      · exact ih s hb
      · obtain ⟨i, hi, h⟩ := ih (ProcessVolumeAction env c a.Action
          (fraction v a.MaxInputValue) s).state hb
        exact ⟨i, List.mem_cons_of_mem _ hi, h⟩
      · exact ih s hb

theorem noteOnLoop_mem {σ : Type} (env : Env σ) (c : PAClient) (ch key : Nat)
    (actions : List MidiAction) (s : σ) (i : Invocation)
    (hi : i ∈ (noteOnLoop env c ch key actions s).invocations) :
    i.binding ∈ actions ∧ i.binding.ActionType = .NoteOn ∧ i.binding.Channel = ch ∧
      i.binding.Controller = key ∧ i.binding.Action.ActionType = .VolumeChange ∧
      i.effect = .mute := by
  induction actions generalizing s with
  | nil => simp [noteOnLoop] at hi
  | cons a rest ih =>
    unfold noteOnLoop at hi
    split_ifs at hi with h1 h2 h3 h4
    · have := ih s hi; simp [this]
    · have := ih s hi; simp [this]
    · have := ih s hi; simp [this]
    · simp only [List.mem_cons] at hi
      rcases hi with rfl | hi
      · simp only [ne_eq, not_not] at h1 h2 h3
        simp [h1, h2, h3, h4]
      · have := ih _ hi; simp [this]
    · have := ih s hi; simp [this]

theorem noteOnLoop_invokes {σ : Type} (env : Env σ) (c : PAClient) (ch key : Nat)
    (actions : List MidiAction) (s : σ) (b : MidiAction) (hb : b ∈ actions)
    (h1 : b.ActionType = .NoteOn) (h2 : b.Channel = ch) (h3 : b.Controller = key)
    (h4 : b.Action.ActionType = .VolumeChange) :
    ∃ i ∈ (noteOnLoop env c ch key actions s).invocations, i.binding = b ∧ i.effect = .mute := by
  induction actions generalizing s with
  | nil => simp at hb
  | cons a rest ih =>
    unfold noteOnLoop
    rcases List.mem_cons.mp hb with rfl | hb
    · simp [h1, h2, h3, h4]
    · split_ifs
      · exact ih s hb
      · exact ih s hb
      · exact ih s hb
      · obtain ⟨i, hi, h⟩ := ih (ProcessMuteAction env c a.Action s).state hb
        exact ⟨i, List.mem_cons_of_mem _ hi, h⟩
      · exact ih s hb

/-- C1, as amended. For every binding `b` of the action table and every incoming
message `e`: `ProcessVolumeAction` is called for `b` exactly when `b` has the
VolumeChange effect and a ControlChange pattern and `e` is a ControlChange with the
binding's channel and controller. `ProcessMuteAction` is called for `b` only when
`b` has a NoteOn pattern and `e` is a NoteOn with the binding's channel and key; of
these bindings the NoteOn loop calls it for the ones that pass its guard at line 155,
which tests the effect against VolumeChange. For a binding with a ControlChange
pattern and any other effect than VolumeChange no method is called at all. -/
theorem dispatch_volume_iff {σ : Type} (env : Env σ) (c : PAClient)
    (MidiActions : List MidiAction) (e : Message) (s : σ) (b : MidiAction)
    (hb : b ∈ MidiActions) :
    ((∃ i ∈ (onMessage env c MidiActions e s).invocations,
        i.binding = b ∧ ∃ perc, i.effect = .volume perc) ↔
      (b.Action.ActionType = .VolumeChange ∧ b.ActionType = .ControlChange ∧
        patternMatches b e)) ∧
    ((∃ i ∈ (onMessage env c MidiActions e s).invocations,
        i.binding = b ∧ i.effect = .mute) →
      b.ActionType = .NoteOn ∧ patternMatches b e) ∧
    ((∃ i ∈ (onMessage env c MidiActions e s).invocations,
        i.binding = b ∧ i.effect = .mute) ↔
      (b.Action.ActionType = .VolumeChange ∧ b.ActionType = .NoteOn ∧
        patternMatches b e)) ∧
    (b.ActionType = .ControlChange → b.Action.ActionType ≠ .VolumeChange →
      ¬ ∃ i ∈ (onMessage env c MidiActions e s).invocations, i.binding = b) := by
  have hmute : (∃ i ∈ (onMessage env c MidiActions e s).invocations,
        i.binding = b ∧ i.effect = .mute) ↔
      (b.Action.ActionType = .VolumeChange ∧ b.ActionType = .NoteOn ∧
        patternMatches b e) := by
    constructor
    · rintro ⟨i, hi, rfl, hmu⟩
      cases e with
      | ControlChange ch ctl v =>
        have h := controlChangeLoop_mem env c ch ctl v MidiActions s i hi
        rw [h.2.2.2.2.2] at hmu
        cases hmu
      | NoteOn ch key vel =>
        have h := noteOnLoop_mem env c ch key MidiActions s i hi
        simp [patternMatches, h]
      | other => simp [onMessage] at hi
    · rintro ⟨h4, h1, hm⟩
      cases e with
      | ControlChange ch ctl v =>
        rw [hm.1] at h1
        cases h1
      | NoteOn ch key vel =>
        exact noteOnLoop_invokes env c ch key MidiActions s b hb h1 hm.2.1 hm.2.2 h4
      | other => exact hm.elim
  refine ⟨?_, fun h => ⟨(hmute.mp h).2.1, (hmute.mp h).2.2⟩, hmute, ?_⟩
  · constructor
    · rintro ⟨i, hi, rfl, perc, hperc⟩
      cases e with
      | ControlChange ch ctl v =>
        have h := controlChangeLoop_mem env c ch ctl v MidiActions s i hi
        simp [patternMatches, h]
      | NoteOn ch key vel =>
        have h := noteOnLoop_mem env c ch key MidiActions s i hi
        rw [h.2.2.2.2.2] at hperc
        cases hperc
      | other => simp [onMessage] at hi
    · rintro ⟨h4, h1, hm⟩
      cases e with
      | ControlChange ch ctl v =>
        obtain ⟨i, hi, hib, hie⟩ :=
          controlChangeLoop_invokes env c ch ctl v MidiActions s b hb h1 hm.2.1 hm.2.2 h4
        exact ⟨i, hi, hib, _, hie⟩
      | NoteOn ch key vel =>
        rw [hm.1] at h1
        cases h1
      | other => exact hm.elim
  · rintro h1 h4 ⟨i, hi, rfl⟩
    cases e with
    | ControlChange ch ctl v =>
      have h := controlChangeLoop_mem env c ch ctl v MidiActions s i hi
      exact h4 h.2.2.2.2.1
    | NoteOn ch key vel =>
      have h := noteOnLoop_mem env c ch key MidiActions s i hi
      rw [h.2.1] at h1
      cases h1
    | other => simp [onMessage] at hi

/-- C1, witness: a VolumeChange binding on ControlChange(0, 1) gets its
`ProcessVolumeAction` call from the message ControlChange(0, 1, 64). -/
theorem dispatch_volume_iff_witness :
    demoBinding .VolumeChange .Sink "Speakers" ∈ [demoBinding .VolumeChange .Sink "Speakers"] ∧
    ∃ i ∈ (onMessage (demoEnv [] [] []) demoClient [demoBinding .VolumeChange .Sink "Speakers"]
        (.ControlChange 0 1 64) ()).invocations,
      i.binding = demoBinding .VolumeChange .Sink "Speakers" ∧ ∃ perc, i.effect = .volume perc :=
  ⟨by decide,
    ((dispatch_volume_iff (demoEnv [] [] []) demoClient
      [demoBinding .VolumeChange .Sink "Speakers"] (.ControlChange 0 1 64) ()
      (demoBinding .VolumeChange .Sink "Speakers") (by decide)).1).2
      ⟨rfl, rfl, rfl, rfl, rfl⟩⟩

/-- C1, counterexample. The binding NoteOn(0, 1) with the VolumeChange effect is in
the table and matches the message NoteOn(0, 1, 127) in type, channel and key, and
`ProcessVolumeAction` is not called for it: the one call made is of
`ProcessMuteAction`. The binding ControlChange(0, 1) with the MuteToggle effect
matches the message ControlChange(0, 1, 64), and nothing is called for it. -/
theorem dispatch_own_effect_counterexample :
    (patternMatches (demoNoteBinding .VolumeChange .Sink "Speakers") (.NoteOn 0 1 127) ∧
      (onMessage (demoEnv [] [] []) demoClient [demoNoteBinding .VolumeChange .Sink "Speakers"]
        (.NoteOn 0 1 127) ()).invocations.map (fun i => (i.binding, i.effect)) =
        [(demoNoteBinding .VolumeChange .Sink "Speakers", .mute)] ∧
      ¬ (ownEffectInvoked (demoNoteBinding .VolumeChange .Sink "Speakers")
          (onMessage (demoEnv [] [] []) demoClient
            [demoNoteBinding .VolumeChange .Sink "Speakers"] (.NoteOn 0 1 127) ()).invocations ↔
        patternMatches (demoNoteBinding .VolumeChange .Sink "Speakers") (.NoteOn 0 1 127))) ∧
    (patternMatches (demoBinding .MuteToggle .Sink "Speakers") (.ControlChange 0 1 64) ∧
      (onMessage (demoEnv [] [] []) demoClient [demoBinding .MuteToggle .Sink "Speakers"]
        (.ControlChange 0 1 64) ()).invocations = [] ∧
      ¬ (ownEffectInvoked (demoBinding .MuteToggle .Sink "Speakers")
          (onMessage (demoEnv [] [] []) demoClient [demoBinding .MuteToggle .Sink "Speakers"]
            (.ControlChange 0 1 64) ()).invocations ↔
        patternMatches (demoBinding .MuteToggle .Sink "Speakers") (.ControlChange 0 1 64))) := by
  constructor
  · have hm : patternMatches (demoNoteBinding .VolumeChange .Sink "Speakers")
        (.NoteOn 0 1 127) := ⟨rfl, rfl, rfl⟩
    have hi : (onMessage (demoEnv [] [] []) demoClient
        [demoNoteBinding .VolumeChange .Sink "Speakers"]
        (.NoteOn 0 1 127) ()).invocations.map (fun i => (i.binding, i.effect)) =
        [(demoNoteBinding .VolumeChange .Sink "Speakers", .mute)] := by decide
    refine ⟨hm, hi, ?_⟩
    intro h
    obtain ⟨i, hmem, _, perc, hperc⟩ := h.mpr hm
    have h2 : (i.binding, i.effect) ∈ (onMessage (demoEnv [] [] []) demoClient
        [demoNoteBinding .VolumeChange .Sink "Speakers"]
        (.NoteOn 0 1 127) ()).invocations.map (fun i => (i.binding, i.effect)) :=
      List.mem_map.mpr ⟨i, hmem, rfl⟩
    rw [hi, hperc] at h2
    simp at h2
  · have hm : patternMatches (demoBinding .MuteToggle .Sink "Speakers")
        (.ControlChange 0 1 64) := ⟨rfl, rfl, rfl⟩
    have hi : (onMessage (demoEnv [] [] []) demoClient
        [demoBinding .MuteToggle .Sink "Speakers"]
        (.ControlChange 0 1 64) ()).invocations = [] := by decide
    refine ⟨hm, hi, ?_⟩
    intro h
    obtain ⟨i, hmem, _⟩ := h.mpr hm
    rw [hi] at hmem
    simp at hmem

/-! ## float32: rounding -/

theorem log2Fuel_spec (fuel n : Nat) (hf : n ≤ fuel) (hn : 0 < n) :
    2 ^ log2Fuel fuel n ≤ n ∧ n < 2 ^ (log2Fuel fuel n + 1) := by
  induction fuel generalizing n with
  | zero => omega
  | succ fuel ih =>
    unfold log2Fuel
    split_ifs with h
    · constructor
      · simp
        omega
      · simp
        omega
    · have h2 : 0 < n / 2 := by omega
      have h3 : n / 2 ≤ fuel := by omega
      obtain ⟨a, b⟩ := ih (n / 2) h3 h2
      constructor
      · rw [pow_succ]
        omega
      · rw [pow_succ]
        omega

theorem log2Floor_spec (n : Nat) (hn : 0 < n) :
    2 ^ log2Floor n ≤ n ∧ n < 2 ^ (log2Floor n + 1) :=
  log2Fuel_spec n n (le_refl n) hn

theorem divRoundEven_spec (n d : Nat) (hd : 0 < d) :
    2 * (divRoundEven n d * d) ≤ 2 * n + d ∧ 2 * n ≤ 2 * (divRoundEven n d * d) + d := by
  have h1 : d * (n / d) + n % d = n := Nat.div_add_mod n d
  have h2 : n % d < d := Nat.mod_lt n hd
  unfold divRoundEven
  dsimp only
  have e1 : (n / d + 1) * d = d * (n / d) + d := by ring
  have e2 : n / d * d = d * (n / d) := by ring
  split_ifs <;> simp only [e1, e2] <;> omega

theorem divRoundEven_one (n : Nat) : divRoundEven n 1 = n := by
  simp [divRoundEven, Nat.mod_one]

theorem roundBinary32_scale (n d : Nat) (hn : 0 < n) (hd : 0 < d) (h1 : n < d * 2 ^ 24)
    (h2 : d ≤ n * 2 ^ 126) :
    ∃ s, roundBinary32 n d = .finite (divRoundEven (n * 2 ^ s) d) (2 ^ s) ∧
      2 ^ 23 * d ≤ n * 2 ^ s := by
  obtain ⟨a1, a2⟩ := log2Floor_spec n hn
  obtain ⟨b1, b2⟩ := log2Floor_spec d hd
  have hA : 0 < 2 ^ log2Floor n := Nat.pow_pos (by norm_num)
  have hB : 0 < 2 ^ log2Floor d := Nat.pow_pos (by norm_num)
  rw [pow_succ] at a2 b2
  -- the exponent, its bound and the scaled quotient, from `t = s + ln`
  have main : ∀ t, log2Floor n + 0 ≤ t + 0 →
      2 ^ 23 * d * 2 ^ log2Floor n ≤ n * 2 ^ t →
      n * 2 ^ t < 2 ^ 24 * d * 2 ^ log2Floor n →
      min (t - log2Floor n) 149 = t - log2Floor n ∧
        2 ^ 23 * d ≤ n * 2 ^ (t - log2Floor n) := by
    intro t hle hlo hup
    have hle2 : log2Floor n ≤ t := by omega
    have hpow : 2 ^ t = 2 ^ (t - log2Floor n) * 2 ^ log2Floor n := by
      rw [← pow_add]
      congr 1
      omega
    have lo : 2 ^ 23 * d ≤ n * 2 ^ (t - log2Floor n) := by
      apply Nat.le_of_mul_le_mul_right _ hA
      calc 2 ^ 23 * d * 2 ^ log2Floor n ≤ n * 2 ^ t := hlo
        _ = n * 2 ^ (t - log2Floor n) * 2 ^ log2Floor n := by rw [hpow]; ring
    have up : n * 2 ^ (t - log2Floor n) < 2 ^ 24 * d := by
      apply Nat.lt_of_mul_lt_mul_right (a := 2 ^ log2Floor n)
      calc n * 2 ^ (t - log2Floor n) * 2 ^ log2Floor n = n * 2 ^ t := by rw [hpow]; ring
        _ < 2 ^ 24 * d * 2 ^ log2Floor n := hup
    refine ⟨?_, lo⟩
    apply min_eq_left
    by_contra hgt
    have h150 : 150 ≤ t - log2Floor n := by omega
    have hp : 2 ^ 150 ≤ 2 ^ (t - log2Floor n) := Nat.pow_le_pow_right (by norm_num) h150
    have : n * 2 ^ 150 < 2 ^ 24 * d :=
      lt_of_le_of_lt (Nat.mul_le_mul_left n hp) up
    have e : n * 2 ^ 150 = 2 ^ 24 * (n * 2 ^ 126) := by ring
    rw [e] at this
    have := Nat.lt_of_mul_lt_mul_left this
    omega
  unfold roundBinary32
  rw [if_neg (by omega)]
  dsimp only
  by_cases hadj : d * 2 ^ log2Floor n ≤ n * 2 ^ log2Floor d
  · rw [if_pos hadj]
    have hle : log2Floor n ≤ 23 + log2Floor d + 0 := by
      by_contra hgt
      have h24 : 24 + log2Floor d ≤ log2Floor n := by omega
      have hp : 2 ^ (24 + log2Floor d) ≤ 2 ^ log2Floor n :=
        Nat.pow_le_pow_right (by norm_num) h24
      rw [pow_add] at hp
      have : d * (2 ^ 24 * 2 ^ log2Floor d) ≤ n * 2 ^ log2Floor d :=
        le_trans (Nat.mul_le_mul_left d hp) hadj
      have e : d * (2 ^ 24 * 2 ^ log2Floor d) = d * 2 ^ 24 * 2 ^ log2Floor d := by ring
      rw [e] at this
      have := Nat.le_of_mul_le_mul_right this hB
      omega
    obtain ⟨m1, m2⟩ := main (23 + log2Floor d + 0) (by omega)
      (by
        have e : n * 2 ^ (23 + log2Floor d + 0) = 2 ^ 23 * (n * 2 ^ log2Floor d) := by
          rw [Nat.add_zero, pow_add]; ring
        rw [e, mul_assoc]
        exact Nat.mul_le_mul_left _ hadj)
      (by
        have e : n * 2 ^ (23 + log2Floor d + 0) = 2 ^ 23 * (n * 2 ^ log2Floor d) := by
          rw [Nat.add_zero, pow_add]; ring
        have e2 : 2 ^ 24 * d * 2 ^ log2Floor n = 2 ^ 23 * (2 ^ log2Floor n * 2 * d) := by ring
        rw [e, e2]
        apply Nat.mul_lt_mul_of_pos_left _ (by norm_num)
        calc n * 2 ^ log2Floor d < 2 ^ log2Floor n * 2 * 2 ^ log2Floor d :=
              Nat.mul_lt_mul_of_pos_right a2 hB
          _ ≤ 2 ^ log2Floor n * 2 * d := Nat.mul_le_mul_left _ b1)
    rw [if_pos hle, m1]
    exact ⟨_, rfl, m2⟩
  · rw [if_neg hadj]
    have hadj2 : n * 2 ^ log2Floor d < d * 2 ^ log2Floor n := by omega
    have hle : log2Floor n ≤ 23 + log2Floor d + 1 := by
      by_contra hgt
      have h25 : 24 + (log2Floor d + 1) ≤ log2Floor n := by omega
      have hp : 2 ^ (24 + (log2Floor d + 1)) ≤ 2 ^ log2Floor n :=
        Nat.pow_le_pow_right (by norm_num) h25
      rw [pow_add, pow_succ] at hp
      have h3 : d * 2 ^ 24 < 2 ^ 24 * (2 ^ log2Floor d * 2) := by
        rw [mul_comm d]
        exact Nat.mul_lt_mul_of_pos_left b2 (by norm_num)
      omega
    obtain ⟨m1, m2⟩ := main (23 + log2Floor d + 1) (by omega)
      (by
        have e : n * 2 ^ (23 + log2Floor d + 1) = 2 ^ 23 * (2 ^ log2Floor d * 2 * n) := by
          rw [pow_succ, pow_add]; ring
        rw [e, mul_assoc]
        apply Nat.mul_le_mul_left
        calc d * 2 ^ log2Floor n ≤ 2 ^ log2Floor d * 2 * 2 ^ log2Floor n :=
              Nat.mul_le_mul_right _ (le_of_lt b2)
          _ ≤ 2 ^ log2Floor d * 2 * n := Nat.mul_le_mul_left _ a1)
      (by
        have e : n * 2 ^ (23 + log2Floor d + 1) = 2 ^ 24 * (n * 2 ^ log2Floor d) := by
          rw [pow_succ, pow_add]; ring
        rw [e, mul_assoc]
        exact Nat.mul_lt_mul_of_pos_left hadj2 (by norm_num))
    rw [if_pos hle, m1]
    exact ⟨_, rfl, m2⟩

/-- Rounding to binary32 is within a relative error of `2^-24` for a quotient in the
normal range below `2^24`. -/
theorem roundBinary32_near (n d : Nat) (hn : 0 < n) (hd : 0 < d) (h1 : n < d * 2 ^ 24)
    (h2 : d ≤ n * 2 ^ 126) :
    ∃ N D, roundBinary32 n d = .finite N D ∧ 0 < D ∧
      (n : ℚ) / d * (1 - 1 / 2 ^ 24) ≤ (N : ℚ) / D ∧
      (N : ℚ) / D ≤ (n : ℚ) / d * (1 + 1 / 2 ^ 24) := by
  obtain ⟨s, hs, lo⟩ := roundBinary32_scale n d hn hd h1 h2
  obtain ⟨m1, m2⟩ := divRoundEven_spec (n * 2 ^ s) d hd
  have hS : (0 : ℚ) < ((2 ^ s : ℕ) : ℚ) := by positivity
  have hdq : (0 : ℚ) < (d : ℚ) := by exact_mod_cast hd
  have lo' : (8388608 : ℚ) * d ≤ n * ((2 ^ s : ℕ) : ℚ) := by exact_mod_cast lo
  have m1' : 2 * ((divRoundEven (n * 2 ^ s) d : ℚ) * d) ≤
      2 * ((n : ℚ) * ((2 ^ s : ℕ) : ℚ)) + d := by exact_mod_cast m1
  have m2' : 2 * ((n : ℚ) * ((2 ^ s : ℕ) : ℚ)) ≤
      2 * ((divRoundEven (n * 2 ^ s) d : ℚ) * d) + d := by exact_mod_cast m2
  have e1 : ((divRoundEven (n * 2 ^ s) d : ℕ) : ℚ) / ((2 ^ s : ℕ) : ℚ) =
      ((divRoundEven (n * 2 ^ s) d : ℚ) * d) / (((2 ^ s : ℕ) : ℚ) * d) := by
    field_simp
    ring
  have e2 : ∀ c : ℚ, (n : ℚ) / d * c =
      ((n : ℚ) * ((2 ^ s : ℕ) : ℚ) * c) / (((2 ^ s : ℕ) : ℚ) * d) := by
    intro c
    field_simp
    ring
  have hpos : (0 : ℚ) < ((2 ^ s : ℕ) : ℚ) * d := mul_pos hS hdq
  refine ⟨_, _, hs, Nat.pow_pos (by norm_num), ?_, ?_⟩
  · rw [e1, e2]
    apply div_le_div_of_nonneg_right _ (le_of_lt hpos)
    generalize (n : ℚ) * ((2 ^ s : ℕ) : ℚ) = X at *
    generalize (divRoundEven (n * 2 ^ s) d : ℚ) * d = Y at *
    norm_num
    linarith
  · rw [e1, e2]
    apply div_le_div_of_nonneg_right _ (le_of_lt hpos)
    generalize (n : ℚ) * ((2 ^ s : ℕ) : ℚ) = X at *
    generalize (divRoundEven (n * 2 ^ s) d : ℚ) * d = Y at *
    norm_num
    linarith

theorem ofNat_exact (m : Nat) (hm : 0 < m) (h : m < 2 ^ 24) :
    ∃ a, F32.ofNat m = .finite (m * 2 ^ a) (2 ^ a) := by
  obtain ⟨a1, a2⟩ := log2Floor_spec m hm
  have hl : log2Floor m < 24 := by
    by_contra hge
    have : 2 ^ 24 ≤ 2 ^ log2Floor m := Nat.pow_le_pow_right (by norm_num) (by omega)
    omega
  have h1 : log2Floor 1 = 0 := by decide
  have hadj : 1 * 2 ^ log2Floor m ≤ m * 2 ^ 0 := by simpa using a1
  have hle : log2Floor m ≤ 23 + 0 + 0 := by omega
  unfold F32.ofNat roundBinary32
  rw [if_neg (by omega)]
  dsimp only
  rw [h1, if_pos hadj, if_pos hle]
  refine ⟨23 - log2Floor m, ?_⟩
  have e : min (23 + 0 + 0 - log2Floor m) 149 = 23 - log2Floor m := by omega
  rw [e, divRoundEven_one]

/-- The float32 product `float32(v) / float32(m) * 65535` for a MIDI value `v` and a
maximum `m` below `2^24`: a finite number within two roundings of `v * 65535 / m`. -/
theorem volume_product_near (v m : Nat) (hv0 : 0 < v) (hv : v ≤ 127) (hm : 0 < m)
    (hm24 : m < 2 ^ 24) :
    ∃ N D, F32.mul (F32.div (F32.ofNat v) (F32.ofNat m)) (F32.ofNat 65535) = .finite N D ∧
      0 < D ∧
      (v : ℚ) * 65535 / m * ((1 - 1 / 2 ^ 24) * (1 - 1 / 2 ^ 24)) ≤ (N : ℚ) / D ∧
      (N : ℚ) / D ≤ (v : ℚ) * 65535 / m * ((1 + 1 / 2 ^ 24) * (1 + 1 / 2 ^ 24)) := by
  obtain ⟨a, ha⟩ := ofNat_exact v hv0 (by omega)
  obtain ⟨b, hb⟩ := ofNat_exact m hm hm24
  have h65 : F32.ofNat 65535 = .finite 16776960 256 := by decide
  have hA : 0 < 2 ^ a := Nat.pow_pos (by norm_num)
  have hB : 0 < 2 ^ b := Nat.pow_pos (by norm_num)
  have hAB : 0 < 2 ^ a * 2 ^ b := Nat.mul_pos hA hB
  have hmq : (0 : ℚ) < (m : ℚ) := by exact_mod_cast hm
  have hvq : (1 : ℚ) ≤ (v : ℚ) := by exact_mod_cast hv0
  have hvq2 : (v : ℚ) ≤ 127 := by exact_mod_cast hv
  have hmq1 : (1 : ℚ) ≤ (m : ℚ) := by exact_mod_cast hm
  have hmq2 : (m : ℚ) ≤ 16777216 := by
    have : m ≤ 16777216 := by omega
    exact_mod_cast this
  -- the division
  have hc : m * 2 ^ b ≠ 0 := Nat.pos_iff_ne_zero.mp (Nat.mul_pos hm hB)
  obtain ⟨N1, D1, hr1, hD1, lo1, up1⟩ := roundBinary32_near (v * 2 ^ a * 2 ^ b)
    (2 ^ a * (m * 2 ^ b)) (Nat.mul_pos (Nat.mul_pos hv0 hA) hB)
    (Nat.mul_pos hA (Nat.mul_pos hm hB))
    (by
      have e1 : v * 2 ^ a * 2 ^ b = v * (2 ^ a * 2 ^ b) := by ring
      have e2 : 2 ^ a * (m * 2 ^ b) * 2 ^ 24 = m * 2 ^ 24 * (2 ^ a * 2 ^ b) := by ring
      rw [e1, e2]
      exact Nat.mul_lt_mul_of_pos_right (by omega) hAB)
    (by
      have e1 : v * 2 ^ a * 2 ^ b * 2 ^ 126 = v * 2 ^ 126 * (2 ^ a * 2 ^ b) := by ring
      have e2 : 2 ^ a * (m * 2 ^ b) = m * (2 ^ a * 2 ^ b) := by ring
      rw [e1, e2]
      apply Nat.mul_le_mul_right
      have : 2 ^ 24 ≤ v * 2 ^ 126 := by
        calc 2 ^ 24 ≤ 1 * 2 ^ 126 := by norm_num
          _ ≤ v * 2 ^ 126 := Nat.mul_le_mul_right _ hv0
      omega)
  have hq1 : ((v * 2 ^ a * 2 ^ b : ℕ) : ℚ) / ((2 ^ a * (m * 2 ^ b) : ℕ) : ℚ) = (v : ℚ) / m := by
    push_cast
    field_simp
    ring
  rw [hq1] at lo1 up1
  have hD1q : (0 : ℚ) < (D1 : ℚ) := by exact_mod_cast hD1
  have hx0 : (0 : ℚ) < (v : ℚ) / m := div_pos (by linarith) hmq
  have hx1 : (v : ℚ) / m ≤ 127 := by
    rw [div_le_iff₀ hmq]
    nlinarith
  have hx2 : (1 : ℚ) / 16777216 ≤ (v : ℚ) / m := by
    rw [le_div_iff₀ hmq]
    linarith
  have hp0 : (0 : ℚ) < (N1 : ℚ) / D1 := by
    refine lt_of_lt_of_le ?_ lo1
    exact mul_pos hx0 (by norm_num)
  have hN1 : 0 < N1 := by
    by_contra h0
    have : N1 = 0 := by omega
    rw [this] at hp0
    simp at hp0
  -- the multiplication
  obtain ⟨N2, D2, hr2, hD2, lo2, up2⟩ := roundBinary32_near (N1 * 16776960) (D1 * 256)
    (Nat.mul_pos hN1 (by norm_num)) (Nat.mul_pos hD1 (by norm_num))
    (by
      have h : (N1 : ℚ) / D1 < 256 := by
        refine lt_of_le_of_lt up1 ?_
        calc (v : ℚ) / m * (1 + 1 / 2 ^ 24) ≤ 127 * (1 + 1 / 2 ^ 24) :=
              mul_le_mul_of_nonneg_right hx1 (by norm_num)
          _ < 256 := by norm_num
      rw [div_lt_iff₀ hD1q] at h
      have h2 : ((N1 * 16776960 : ℕ) : ℚ) < ((D1 * 256 * 2 ^ 24 : ℕ) : ℚ) := by
        push_cast
        nlinarith
      exact_mod_cast h2)
    (by
      have h : (1 : ℚ) / 33554432 ≤ (N1 : ℚ) / D1 := by
        refine le_trans ?_ lo1
        calc (1 : ℚ) / 33554432 ≤ 1 / 16777216 * (1 - 1 / 2 ^ 24) := by norm_num
          _ ≤ (v : ℚ) / m * (1 - 1 / 2 ^ 24) :=
              mul_le_mul_of_nonneg_right hx2 (by norm_num)
      rw [le_div_iff₀ hD1q] at h
      have h3 : (0 : ℚ) ≤ (N1 : ℚ) := by positivity
      have h2 : ((D1 * 256 : ℕ) : ℚ) ≤ ((N1 * 16776960 * 2 ^ 126 : ℕ) : ℚ) := by
        push_cast
        nlinarith
      exact_mod_cast h2)
  have hq2 : ((N1 * 16776960 : ℕ) : ℚ) / ((D1 * 256 : ℕ) : ℚ) = (N1 : ℚ) / D1 * 65535 := by
    push_cast
    field_simp
    ring
  rw [hq2] at lo2 up2
  refine ⟨N2, D2, ?_, hD2, ?_, ?_⟩
  · rw [ha, hb, h65]
    simp only [F32.div, if_neg hc, hr1, F32.mul, hr2]
  · refine le_trans ?_ lo2
    have : (v : ℚ) * 65535 / m * ((1 - 1 / 2 ^ 24) * (1 - 1 / 2 ^ 24)) =
        ((v : ℚ) / m * (1 - 1 / 2 ^ 24)) * 65535 * (1 - 1 / 2 ^ 24) := by ring
    rw [this]
    exact mul_le_mul_of_nonneg_right (mul_le_mul_of_nonneg_right lo1 (by norm_num))
      (by norm_num)
  · refine le_trans up2 ?_
    have : (v : ℚ) * 65535 / m * ((1 + 1 / 2 ^ 24) * (1 + 1 / 2 ^ 24)) =
        ((v : ℚ) / m * (1 + 1 / 2 ^ 24)) * 65535 * (1 + 1 / 2 ^ 24) := by ring
    rw [this]
    exact mul_le_mul_of_nonneg_right (mul_le_mul_of_nonneg_right up1 (by norm_num))
      (by norm_num)

/-- What `uint32(float32(v) / float32(m) * 65535)` is for a MIDI value `v` (at most
127) and a maximum `m` below `2^24`: the integer quotient `v * 65535 / m` when `m`
does not divide `v * 65535`, and that quotient or one less when it does. The float32
roundings never carry the product to the next integer. -/
theorem volume_product_floor (u v m : Nat) (hv : v ≤ 127) (hm : 0 < m) (hm24 : m < 2 ^ 24) :
    F32.toUint32 u (F32.mul (F32.div (F32.ofNat v) (F32.ofNat m)) (F32.ofNat 65535)) ≤
      v * 65535 / m ∧
    v * 65535 / m ≤
      F32.toUint32 u (F32.mul (F32.div (F32.ofNat v) (F32.ofNat m)) (F32.ofNat 65535)) + 1 ∧
    (¬ m ∣ v * 65535 →
      F32.toUint32 u (F32.mul (F32.div (F32.ofNat v) (F32.ofNat m)) (F32.ofNat 65535)) =
        v * 65535 / m) := by
  rcases Nat.eq_zero_or_pos v with hv0 | hv0
  · subst hv0
    obtain ⟨b, hb⟩ := ofNat_exact m hm hm24
    have h0 : F32.ofNat 0 = .finite 0 1 := by decide
    have h65 : F32.ofNat 65535 = .finite 16776960 256 := by decide
    have hc : m * 2 ^ b ≠ 0 :=
      Nat.pos_iff_ne_zero.mp (Nat.mul_pos hm (Nat.pow_pos (by norm_num)))
    have hz : ∀ d, roundBinary32 0 d = .finite 0 1 := by
      intro d
      simp [roundBinary32]
    have e : F32.toUint32 u (F32.mul (F32.div (F32.ofNat 0) (F32.ofNat m)) (F32.ofNat 65535))
        = 0 := by
      rw [h0, hb, h65]
      simp [F32.div, hc, hz, F32.mul, F32.toUint32]
    rw [e]
    simp
  · obtain ⟨N, D, hr, hD, lo, up⟩ := volume_product_near v m hv0 hv hm hm24
    rw [hr]
    have hmq : (0 : ℚ) < (m : ℚ) := by exact_mod_cast hm
    have hDq : (0 : ℚ) < (D : ℚ) := by exact_mod_cast hD
    have hvq : (1 : ℚ) ≤ (v : ℚ) := by exact_mod_cast hv0
    have hvq2 : (v : ℚ) ≤ 127 := by exact_mod_cast hv
    have hmq1 : (1 : ℚ) ≤ (m : ℚ) := by exact_mod_cast hm
    -- the integer quotient and remainder of the exact value
    have hqr : m * (v * 65535 / m) + v * 65535 % m = v * 65535 := Nat.div_add_mod _ _
    have hrlt : v * 65535 % m < m := Nat.mod_lt _ hm
    have hqrq : (m : ℚ) * ((v * 65535 / m : ℕ) : ℚ) + ((v * 65535 % m : ℕ) : ℚ) =
        (v : ℚ) * 65535 := by exact_mod_cast hqr
    have hrq : ((v * 65535 % m : ℕ) : ℚ) + 1 ≤ (m : ℚ) := by exact_mod_cast hrlt
    have hr0 : (0 : ℚ) ≤ ((v * 65535 % m : ℕ) : ℚ) := by positivity
    -- the float product lies strictly within 1/m of the exact value
    have hup : (N : ℚ) / D < ((v : ℚ) * 65535 + 1) / m := by
      refine lt_of_le_of_lt up ?_
      rw [div_mul_eq_mul_div, div_lt_div_iff_of_pos_right hmq]
      nlinarith
    have hlo : ((v : ℚ) * 65535 - 1) / m < (N : ℚ) / D := by
      refine lt_of_lt_of_le ?_ lo
      rw [div_mul_eq_mul_div, div_lt_div_iff_of_pos_right hmq]
      nlinarith
    -- the integer part of the float product
    have hk1 : ((N / D : ℕ) : ℚ) ≤ (N : ℚ) / D := by
      rw [le_div_iff₀ hDq]
      exact_mod_cast Nat.div_mul_le_self N D
    have hk2 : (N : ℚ) / D < ((N / D : ℕ) : ℚ) + 1 := by
      rw [div_lt_iff₀ hDq]
      have := Nat.lt_mul_div_succ N hD
      have h2 : (N : ℚ) < (D : ℚ) * (((N / D : ℕ) : ℚ) + 1) := by exact_mod_cast this
      linarith
    have upper : N / D ≤ v * 65535 / m := by
      have h1 : ((v : ℚ) * 65535 + 1) / m ≤ ((v * 65535 / m : ℕ) : ℚ) + 1 := by
        rw [div_le_iff₀ hmq]
        linarith
      have h2 : ((N / D : ℕ) : ℚ) < ((v * 65535 / m : ℕ) : ℚ) + 1 := by linarith
      have h3 : N / D < v * 65535 / m + 1 := by exact_mod_cast h2
      omega
    have hq32 : v * 65535 / m < 2 ^ 32 := by
      have : v * 65535 / m ≤ v * 65535 := Nat.div_le_self _ _
      omega
    have hND : N / D < 2 ^ 32 := lt_of_le_of_lt upper hq32
    have e : F32.toUint32 u (.finite N D) = N / D := by
      simp only [F32.toUint32, if_pos hND]
    rw [e]
    refine ⟨upper, ?_, ?_⟩
    · have h1 : ((v * 65535 / m : ℕ) : ℚ) - 1 ≤ ((v : ℚ) * 65535 - 1) / m := by
        rw [le_div_iff₀ hmq]
        linarith
      have h2 : ((v * 65535 / m : ℕ) : ℚ) < ((N / D : ℕ) : ℚ) + 1 + 1 := by linarith
      have h3 : v * 65535 / m < N / D + 1 + 1 := by exact_mod_cast h2
      omega
    · intro hdvd
      have hrpos : 0 < v * 65535 % m := by
        rcases Nat.eq_zero_or_pos (v * 65535 % m) with h0 | h0
        · exact (hdvd (Nat.dvd_of_mod_eq_zero h0)).elim
        · exact h0
      have hrq1 : (1 : ℚ) ≤ ((v * 65535 % m : ℕ) : ℚ) := by exact_mod_cast hrpos
      have h1 : ((v * 65535 / m : ℕ) : ℚ) ≤ ((v : ℚ) * 65535 - 1) / m := by
        rw [le_div_iff₀ hmq]
        linarith
      have h2 : ((v * 65535 / m : ℕ) : ℚ) < ((N / D : ℕ) : ℚ) + 1 := by linarith
      have h3 : v * 65535 / m < N / D + 1 := by exact_mod_cast h2
      omega

/-! ## The effects: lookup, writes, failures -/

theorem targetObjects_eq (c : PAClient) (action : PulseAudioAction) :
    targetObjects c action =
      (references c action.TargetType action.TargetName).map
        (fun p => ⟨categoryKind action.TargetType, p⟩) := by
  rcases action with ⟨e, t, n⟩
  cases t <;> simp [targetObjects, references, categoryIndex, categoryKind] <;>
    split <;> simp_all

theorem volumeVector_eq (res : Except Error (List Nat)) (newVol : Nat) :
    volumeVector res newVol = List.replicate (channelCount res) newVol := by
  cases res with
  | error e => simp [volumeVector, channelCount]
  | ok chans =>
    simp only [volumeVector, channelCount]
    exact List.eq_replicate_iff.mpr ⟨by simp, by simp⟩

theorem volumeLoop_run {σ : Type} (env : Env σ) (newVol : Nat) (objs : List Obj) (s : σ) :
    ∃ steps : List VolumeStep,
      (volumeLoop env newVol objs s).calls = steps.flatMap (VolumeStep.calls newVol) ∧
      VolumeRun env newVol s steps (volumeLoop env newVol objs s).state ∧
      StepsUpToFailure objs (volumeLoop env newVol objs s).err steps := by
  induction objs generalizing s with
  | nil => exact ⟨[], by simp [volumeLoop], by simp [volumeLoop, VolumeRun],
      by simp [volumeLoop, StepsUpToFailure]⟩
  | cons obj rest ih =>
    have hv := volumeVector_eq (env.listUint32 s obj "Channels") newVol
    rcases h : env.setProp s obj "Volume"
      (.uint32s (volumeVector (env.listUint32 s obj "Channels") newVol)) with ⟨s1, _ | err⟩
    · obtain ⟨steps, p1, p2, p3, p4⟩ := ih s1
      have h' := h
      rw [hv] at h'
      refine ⟨⟨obj, env.listUint32 s obj "Channels", none⟩ :: steps, ?_, ?_, ?_, ?_⟩
      · simp only [volumeLoop, h, List.flatMap_cons, VolumeStep.calls, p1, ← hv]
        rfl
      · simp only [volumeLoop, h, VolumeRun, h']
        exact ⟨trivial, trivial, p2⟩
      · intro hn
        simp only [volumeLoop, h] at hn
        obtain ⟨q1, q2⟩ := p3 hn
        refine ⟨by simp [q1], ?_⟩
        intro st hst
        rcases List.mem_cons.mp hst with rfl | hst
        · rfl
        · exact q2 st hst
      · intro e he
        simp only [volumeLoop, h] at he
        obtain ⟨before, last, q1, q2, q3, q4⟩ := p4 e he
        refine ⟨⟨obj, env.listUint32 s obj "Channels", none⟩ :: before, last, by simp [q1],
          q2, ?_, ?_⟩
        · intro st hst
          rcases List.mem_cons.mp hst with rfl | hst
          · rfl
          · exact q3 st hst
        · simpa using (List.prefix_cons_inj obj).mpr q4
    · have h' := h
      rw [hv] at h'
      refine ⟨[⟨obj, env.listUint32 s obj "Channels", some err⟩], ?_, ?_, ?_, ?_⟩
      · simp only [volumeLoop, h, List.flatMap_cons, VolumeStep.calls, ← hv]
        rfl
      · simp only [volumeLoop, h, VolumeRun, h']
        exact ⟨trivial, trivial, trivial⟩
      · intro hn
        simp [volumeLoop, h] at hn
      · intro e he
        simp only [volumeLoop, h, Option.some.injEq] at he
        subst he
        exact ⟨[], _, rfl, rfl, by simp, by simp [List.prefix_iff_eq_append]⟩

theorem ProcessVolumeAction_run {σ : Type} (env : Env σ) (c : PAClient)
    (action : PulseAudioAction) (volume : F32) (s : σ) :
    ∃ steps : List VolumeStep,
      (ProcessVolumeAction env c action volume s).calls =
        steps.flatMap (VolumeStep.calls (newVolume env volume)) ∧
      VolumeRun env (newVolume env volume) s steps
        (ProcessVolumeAction env c action volume s).state ∧
      StepsUpToFailure (targetObjects c action)
        (ProcessVolumeAction env c action volume s).err steps := by
  unfold ProcessVolumeAction
  dsimp only
  split_ifs with h
  · exact volumeLoop_run env _ _ s
  · have h0 : targetObjects c action = [] := by
      cases hl : targetObjects c action with
      | nil => rfl
      | cons a l => simp [hl] at h
    exact ⟨[], by simp, by simp [VolumeRun], by simp [StepsUpToFailure, h0]⟩

theorem volume_invocation_single {σ : Type} (env : Env σ) (c : PAClient) (b : MidiAction)
    (ch ctl v : Nat) (s : σ) (h1 : b.ActionType = .ControlChange) (h2 : b.Channel = ch)
    (h3 : b.Controller = ctl) (h4 : b.Action.ActionType = .VolumeChange) :
    (onMessage env c [b] (.ControlChange ch ctl v) s).invocations =
      [⟨b, .volume (fraction v b.MaxInputValue),
        (ProcessVolumeAction env c b.Action (fraction v b.MaxInputValue) s).err,
        (ProcessVolumeAction env c b.Action (fraction v b.MaxInputValue) s).calls⟩] := by
  simp [onMessage, controlChangeLoop, h1, h2, h3, h4]

theorem controlChangeLoop_calls {σ : Type} (env : Env σ) (c : PAClient) (ch ctl v : Nat)
    (actions : List MidiAction) (s : σ) (i : Invocation)
    (hi : i ∈ (controlChangeLoop env c ch ctl v actions s).invocations) :
    ∃ s1, i = ⟨i.binding, .volume (fraction v i.binding.MaxInputValue),
      (ProcessVolumeAction env c i.binding.Action (fraction v i.binding.MaxInputValue) s1).err,
      (ProcessVolumeAction env c i.binding.Action
        (fraction v i.binding.MaxInputValue) s1).calls⟩ := by
  induction actions generalizing s with
  | nil => simp [controlChangeLoop] at hi
  | cons a rest ih =>
    unfold controlChangeLoop at hi
    split_ifs at hi with h1 h2 h3 h4
    · exact ih s hi
    · exact ih s hi
    · exact ih s hi
    · simp only [List.mem_cons] at hi
      rcases hi with rfl | hi
      · exact ⟨s, rfl⟩
      · exact ih _ hi
    · exact ih s hi

theorem controlChangeLoop_invokes_at {σ : Type} (env : Env σ) (c : PAClient) (ch ctl v : Nat)
    (actions : List MidiAction) (s : σ) (b : MidiAction) (hb : b ∈ actions)
    (h1 : b.ActionType = .ControlChange) (h2 : b.Channel = ch) (h3 : b.Controller = ctl)
    (h4 : b.Action.ActionType = .VolumeChange) :
    ∃ s1, (⟨b, .volume (fraction v b.MaxInputValue),
      (ProcessVolumeAction env c b.Action (fraction v b.MaxInputValue) s1).err,
      (ProcessVolumeAction env c b.Action (fraction v b.MaxInputValue) s1).calls⟩ :
        Invocation) ∈ (controlChangeLoop env c ch ctl v actions s).invocations := by
  obtain ⟨i, hi, hib, _⟩ := controlChangeLoop_invokes env c ch ctl v actions s b hb h1 h2 h3 h4
  obtain ⟨s1, hs1⟩ := controlChangeLoop_calls env c ch ctl v actions s i hi
  rw [hib] at hs1
  exact ⟨s1, hs1 ▸ hi⟩

/-- C2, as amended. A ControlChange message with raw value `v` makes, for every
VolumeChange binding `b` of the table that it matches, a call of `ProcessVolumeAction`
with the fraction `float32(v) / float32(b.MaxInputValue)`, and makes no other call.
Such a call, from whatever server state, goes through the matched endpoints in index
order: it reads `Channels` and writes to `Volume` a vector with one entry per channel
read (none when the read failed), every entry being `uint32(fraction * 65535)`; it
stops after the first write that fails and returns its error, and writes every
matched endpoint when none fails. The entry is the float32 product with its fraction
cut off, never rounded up: for a MIDI value `v` of at most 127 and a maximum below
`2^24` it is the integer quotient `v * 65535 / m` when `m` does not divide
`v * 65535`, and that quotient or one less when it does. -/
theorem volume_write_truncated {σ : Type} (env : Env σ) (c : PAClient)
    (MidiActions : List MidiAction) (b : MidiAction) (ch ctl v : Nat) (s : σ)
    (hb : b ∈ MidiActions) (h1 : b.ActionType = .ControlChange) (h2 : b.Channel = ch)
    (h3 : b.Controller = ctl) (h4 : b.Action.ActionType = .VolumeChange) :
    (∃ s1, (⟨b, .volume (fraction v b.MaxInputValue),
        (ProcessVolumeAction env c b.Action (fraction v b.MaxInputValue) s1).err,
        (ProcessVolumeAction env c b.Action (fraction v b.MaxInputValue) s1).calls⟩ :
          Invocation) ∈
      (onMessage env c MidiActions (.ControlChange ch ctl v) s).invocations) ∧
    (∀ i ∈ (onMessage env c MidiActions (.ControlChange ch ctl v) s).invocations,
      ∃ s1, i = ⟨i.binding, .volume (fraction v i.binding.MaxInputValue),
        (ProcessVolumeAction env c i.binding.Action
          (fraction v i.binding.MaxInputValue) s1).err,
        (ProcessVolumeAction env c i.binding.Action
          (fraction v i.binding.MaxInputValue) s1).calls⟩) ∧
    (onMessage env c [b] (.ControlChange ch ctl v) s).invocations =
      [⟨b, .volume (fraction v b.MaxInputValue),
        (ProcessVolumeAction env c b.Action (fraction v b.MaxInputValue) s).err,
        (ProcessVolumeAction env c b.Action (fraction v b.MaxInputValue) s).calls⟩] ∧
    (∀ s1, ∃ steps : List VolumeStep,
      (ProcessVolumeAction env c b.Action (fraction v b.MaxInputValue) s1).calls =
        steps.flatMap (VolumeStep.calls (newVolume env (fraction v b.MaxInputValue))) ∧
      VolumeRun env (newVolume env (fraction v b.MaxInputValue)) s1 steps
        (ProcessVolumeAction env c b.Action (fraction v b.MaxInputValue) s1).state ∧
      StepsUpToFailure (targetObjects c b.Action)
        (ProcessVolumeAction env c b.Action (fraction v b.MaxInputValue) s1).err steps) ∧
    (v ≤ 127 → 0 < b.MaxInputValue → b.MaxInputValue < 2 ^ 24 →
      newVolume env (fraction v b.MaxInputValue) ≤ v * 65535 / b.MaxInputValue ∧
      v * 65535 / b.MaxInputValue ≤ newVolume env (fraction v b.MaxInputValue) + 1 ∧
      (¬ b.MaxInputValue ∣ v * 65535 →
        newVolume env (fraction v b.MaxInputValue) = v * 65535 / b.MaxInputValue)) :=
  ⟨controlChangeLoop_invokes_at env c ch ctl v MidiActions s b hb h1 h2 h3 h4,
    fun i hi => controlChangeLoop_calls env c ch ctl v MidiActions s i hi,
    volume_invocation_single env c b ch ctl v s h1 h2 h3 h4,
    fun s1 => ProcessVolumeAction_run env c b.Action _ s1,
    fun hv hm hm24 => volume_product_floor env.uint32Undef v b.MaxInputValue hv hm hm24⟩

/-- C2, witness: the message ControlChange(0, 1, 127) on a binding with maximum 127
writes the vector 65535, 65535 to both stereo sinks called Speakers; the message
ControlChange(0, 1, 64) makes the entry 33025, the integer quotient of 64 * 65535 by
127. -/
theorem volume_write_truncated_witness :
    (onMessage (demoEnv [] [] []) demoClient [demoBinding .VolumeChange .Sink "Speakers"]
      (.ControlChange 0 1 127) ()).invocations =
      [⟨demoBinding .VolumeChange .Sink "Speakers", .volume (.finite 8388608 8388608), none,
        [.ListUint32 ⟨.Device, "/sink0"⟩ "Channels" (.ok [1, 2]),
         .Set ⟨.Device, "/sink0"⟩ "Volume" (.uint32s [65535, 65535]) none,
         .ListUint32 ⟨.Device, "/sink1"⟩ "Channels" (.ok [1, 2]),
         .Set ⟨.Device, "/sink1"⟩ "Volume" (.uint32s [65535, 65535]) none]⟩] ∧
    newVolume (demoEnv [] [] []) (fraction 64 127) = 33025 :=
  ⟨(volume_write_truncated (demoEnv [] [] []) demoClient
      [demoBinding .VolumeChange .Sink "Speakers"]
      (demoBinding .VolumeChange .Sink "Speakers") 0 1 127 () (by decide) rfl rfl rfl
      rfl).2.2.1.trans (by decide),
    ((volume_write_truncated (demoEnv [] [] []) demoClient
      [demoBinding .VolumeChange .Sink "Speakers"]
      (demoBinding .VolumeChange .Sink "Speakers") 0 1 64 () (by decide) rfl rfl rfl
      rfl).2.2.2.2 (by decide) (by decide) (by decide)).2.2 (by decide)⟩

/-- C2, counterexample. The message ControlChange(0, 1, 64) on a binding with
maximum 127 writes 33025 to every channel of the matched sinks, and (64/127) × 65535
rounded to the nearest integer is 33026. -/
theorem volume_rounding_counterexample :
    (onMessage (demoEnv [] [] []) demoClient [demoBinding .VolumeChange .Sink "Speakers"]
      (.ControlChange 0 1 64) ()).calls =
      [.ListUint32 ⟨.Device, "/sink0"⟩ "Channels" (.ok [1, 2]),
       .Set ⟨.Device, "/sink0"⟩ "Volume" (.uint32s [33025, 33025]) none,
       .ListUint32 ⟨.Device, "/sink1"⟩ "Channels" (.ok [1, 2]),
       .Set ⟨.Device, "/sink1"⟩ "Volume" (.uint32s [33025, 33025]) none] ∧
    round ((64 : ℚ) / 127 * 65535) = 33026 ∧
    ¬ ∀ call ∈ (onMessage (demoEnv [] [] []) demoClient
        [demoBinding .VolumeChange .Sink "Speakers"] (.ControlChange 0 1 64) ()).calls,
      ∀ obj vs err, call = .Set obj "Volume" (.uint32s vs) err →
        ∀ x ∈ vs, (x : ℤ) = round ((64 : ℚ) / 127 * 65535) := by
  have hc : (onMessage (demoEnv [] [] []) demoClient [demoBinding .VolumeChange .Sink "Speakers"]
      (.ControlChange 0 1 64) ()).calls =
      [.ListUint32 ⟨.Device, "/sink0"⟩ "Channels" (.ok [1, 2]),
       .Set ⟨.Device, "/sink0"⟩ "Volume" (.uint32s [33025, 33025]) none,
       .ListUint32 ⟨.Device, "/sink1"⟩ "Channels" (.ok [1, 2]),
       .Set ⟨.Device, "/sink1"⟩ "Volume" (.uint32s [33025, 33025]) none] := by decide
  have hr : round ((64 : ℚ) / 127 * 65535) = 33026 := by
    rw [round_eq, Int.floor_eq_iff]
    constructor <;> norm_num
  refine ⟨hc, hr, ?_⟩
  intro h
  have := h (.Set ⟨.Device, "/sink0"⟩ "Volume" (.uint32s [33025, 33025]) none)
    (by rw [hc]; simp) ⟨.Device, "/sink0"⟩ [33025, 33025] none rfl 33025 (by simp)
  rw [hr] at this
  norm_num at this

/-! ## A target without references -/

theorem ProcessVolumeAction_miss {σ : Type} (env : Env σ) (c : PAClient)
    (action : PulseAudioAction) (volume : F32) (s : σ)
    (h : references c action.TargetType action.TargetName = []) :
    ProcessVolumeAction env c action volume s = ⟨s, none, []⟩ := by
  simp [ProcessVolumeAction, targetObjects_eq, h]

theorem ProcessMuteAction_miss {σ : Type} (env : Env σ) (c : PAClient)
    (action : PulseAudioAction) (s : σ)
    (h : references c action.TargetType action.TargetName = []) :
    ProcessMuteAction env c action s = ⟨s, none, []⟩ := by
  simp [ProcessMuteAction, targetObjects_eq, h]

theorem controlChangeLoop_append {σ : Type} (env : Env σ) (c : PAClient) (ch ctl v : Nat)
    (l1 l2 : List MidiAction) (s : σ) :
    controlChangeLoop env c ch ctl v (l1 ++ l2) s =
      ⟨(controlChangeLoop env c ch ctl v l2 (controlChangeLoop env c ch ctl v l1 s).state).state,
        (controlChangeLoop env c ch ctl v l1 s).invocations ++
          (controlChangeLoop env c ch ctl v l2
            (controlChangeLoop env c ch ctl v l1 s).state).invocations⟩ := by
  induction l1 generalizing s with
  | nil => simp [controlChangeLoop]
  | cons a rest ih =>
    simp only [List.cons_append, controlChangeLoop]
    split_ifs <;> simp [ih]

theorem noteOnLoop_append {σ : Type} (env : Env σ) (c : PAClient) (ch key : Nat)
    (l1 l2 : List MidiAction) (s : σ) :
    noteOnLoop env c ch key (l1 ++ l2) s =
      ⟨(noteOnLoop env c ch key l2 (noteOnLoop env c ch key l1 s).state).state,
        (noteOnLoop env c ch key l1 s).invocations ++
          (noteOnLoop env c ch key l2 (noteOnLoop env c ch key l1 s).state).invocations⟩ := by
  induction l1 generalizing s with
  | nil => simp [noteOnLoop]
  | cons a rest ih =>
    simp only [List.cons_append, noteOnLoop]
    split_ifs <;> simp [ih]

theorem onMessage_append {σ : Type} (env : Env σ) (c : PAClient) (l1 l2 : List MidiAction)
    (e : Message) (s : σ) :
    onMessage env c (l1 ++ l2) e s =
      ⟨(onMessage env c l2 e (onMessage env c l1 e s).state).state,
        (onMessage env c l1 e s).invocations ++
          (onMessage env c l2 e (onMessage env c l1 e s).state).invocations⟩ := by
  cases e with
  | ControlChange ch ctl v => exact controlChangeLoop_append env c ch ctl v l1 l2 s
  | NoteOn ch key vel => exact noteOnLoop_append env c ch key l1 l2 s
  | other => simp [onMessage]

theorem onMessage_single_miss {σ : Type} (env : Env σ) (c : PAClient) (b : MidiAction)
    (e : Message) (s : σ)
    (h : references c b.Action.TargetType b.Action.TargetName = []) :
    (onMessage env c [b] e s).state = s ∧
      ∀ i ∈ (onMessage env c [b] e s).invocations, i.calls = [] := by
  cases e with
  | ControlChange ch ctl v =>
    simp only [onMessage, controlChangeLoop]
    split_ifs <;> simp [ProcessVolumeAction_miss env c b.Action _ s h]
  | NoteOn ch key vel =>
    simp only [onMessage, noteOnLoop]
    split_ifs <;> simp [ProcessMuteAction_miss env c b.Action s h]
  | other => simp [onMessage]

theorem flatMap_calls_nil (l : List Invocation) (h : ∀ i ∈ l, i.calls = []) :
    l.flatMap (fun i => i.calls) = [] := by
  induction l with
  | nil => rfl
  | cons a rest ih =>
    simp only [List.flatMap_cons, h a (List.mem_cons_self _ _), List.nil_append]
    exact ih (fun i hi => h i (List.mem_cons_of_mem _ hi))

/-- C3, as amended. When the target name of a binding has no reference in the index
map of its category, `ProcessVolumeAction` and `ProcessMuteAction` on its action make
no server call, leave the server as it is and return no error. In the dispatch loop
such a binding stops nothing: with it anywhere in the action table, the server ends in
the same state after the same calls as without it, and every call of an effect made
without it is made with it. Next to a second binding, in either order, every call of
an effect that the message makes for the second binding alone is made with the same
result; so for two VolumeChange bindings matching the same ControlChange message,
`ProcessVolumeAction` is called for the one whose target resolves, on the state the
message found. -/
theorem lookup_miss_is_noop {σ : Type} (env : Env σ) (c : PAClient) (bMiss : MidiAction)
    (hmiss : references c bMiss.Action.TargetType bMiss.Action.TargetName = []) :
    (∀ volume s, ProcessVolumeAction env c bMiss.Action volume s = ⟨s, none, []⟩) ∧
    (∀ s, ProcessMuteAction env c bMiss.Action s = ⟨s, none, []⟩) ∧
    (∀ (before after : List MidiAction) (e : Message) (s : σ),
      (onMessage env c (before ++ bMiss :: after) e s).state =
        (onMessage env c (before ++ after) e s).state ∧
      (onMessage env c (before ++ bMiss :: after) e s).calls =
        (onMessage env c (before ++ after) e s).calls ∧
      (onMessage env c (before ++ after) e s).invocations.Sublist
        (onMessage env c (before ++ bMiss :: after) e s).invocations) ∧
    (∀ (bRes : MidiAction) (e : Message) (s : σ),
      ∀ i ∈ (onMessage env c [bRes] e s).invocations,
        i ∈ (onMessage env c [bMiss, bRes] e s).invocations ∧
        i ∈ (onMessage env c [bRes, bMiss] e s).invocations) ∧
    (∀ (bRes : MidiAction) (ch ctl v : Nat) (s : σ),
      bRes.ActionType = .ControlChange → bRes.Channel = ch → bRes.Controller = ctl →
      bRes.Action.ActionType = .VolumeChange →
      (⟨bRes, .volume (fraction v bRes.MaxInputValue),
          (ProcessVolumeAction env c bRes.Action (fraction v bRes.MaxInputValue) s).err,
          (ProcessVolumeAction env c bRes.Action (fraction v bRes.MaxInputValue) s).calls⟩ ∈
        (onMessage env c [bMiss, bRes] (.ControlChange ch ctl v) s).invocations) ∧
      (⟨bRes, .volume (fraction v bRes.MaxInputValue),
          (ProcessVolumeAction env c bRes.Action (fraction v bRes.MaxInputValue) s).err,
          (ProcessVolumeAction env c bRes.Action (fraction v bRes.MaxInputValue) s).calls⟩ ∈
        (onMessage env c [bRes, bMiss] (.ControlChange ch ctl v) s).invocations)) := by
  have key : ∀ (before after : List MidiAction) (e : Message) (s : σ),
      (onMessage env c (before ++ bMiss :: after) e s).state =
        (onMessage env c (before ++ after) e s).state ∧
      (onMessage env c (before ++ bMiss :: after) e s).calls =
        (onMessage env c (before ++ after) e s).calls ∧
      (onMessage env c (before ++ after) e s).invocations.Sublist
        (onMessage env c (before ++ bMiss :: after) e s).invocations := by
    intro before after e s
    have hs := onMessage_single_miss env c bMiss e (onMessage env c before e s).state hmiss
    have e1 : before ++ bMiss :: after = before ++ ([bMiss] ++ after) := by simp
    rw [e1, onMessage_append env c before ([bMiss] ++ after),
      onMessage_append env c [bMiss] after, onMessage_append env c before after, hs.1]
    refine ⟨rfl, ?_, ?_⟩
    · simp only [DispatchResult.calls, List.flatMap_append, flatMap_calls_nil _ hs.2,
        List.nil_append]
    · exact List.Sublist.append (List.Sublist.refl _) (List.sublist_append_right _ _)
  have pair : ∀ (bRes : MidiAction) (e : Message) (s : σ),
      ∀ i ∈ (onMessage env c [bRes] e s).invocations,
        i ∈ (onMessage env c [bMiss, bRes] e s).invocations ∧
        i ∈ (onMessage env c [bRes, bMiss] e s).invocations := by
    intro bRes e s i hi
    constructor
    · have h := (key [] [bRes] e s).2.2
      simp only [List.nil_append] at h
      exact h.subset hi
    · have h := (key [bRes] [] e s).2.2
      simp only [List.append_nil, List.singleton_append] at h
      exact h.subset hi
  refine ⟨fun volume s => ProcessVolumeAction_miss env c _ volume s hmiss,
    fun s => ProcessMuteAction_miss env c _ s hmiss, key, pair, ?_⟩
  intro bRes ch ctl v s h1 h2 h3 h4
  exact pair bRes (.ControlChange ch ctl v) s _
    (by rw [volume_invocation_single env c bRes ch ctl v s h1 h2 h3 h4]; simp)

/-- C3, witness: no sink is called Headphones; a binding on it next to a binding on
the sinks called Speakers, in either order, leaves the writes to both Speakers sinks. -/
theorem lookup_miss_is_noop_witness :
    references demoClient .Sink "Headphones" = [] ∧
    ProcessVolumeAction (demoEnv [] [] []) demoClient
      (demoBinding .VolumeChange .Sink "Headphones").Action (fraction 127 127) () =
        ⟨(), none, []⟩ ∧
    (onMessage (demoEnv [] [] []) demoClient
      [demoBinding .VolumeChange .Sink "Headphones", demoBinding .VolumeChange .Sink "Speakers"]
      (.ControlChange 0 1 127) ()).calls =
      [.ListUint32 ⟨.Device, "/sink0"⟩ "Channels" (.ok [1, 2]),
       .Set ⟨.Device, "/sink0"⟩ "Volume" (.uint32s [65535, 65535]) none,
       .ListUint32 ⟨.Device, "/sink1"⟩ "Channels" (.ok [1, 2]),
       .Set ⟨.Device, "/sink1"⟩ "Volume" (.uint32s [65535, 65535]) none] ∧
    (onMessage (demoEnv [] [] []) demoClient
      [demoBinding .VolumeChange .Sink "Speakers", demoBinding .VolumeChange .Sink "Headphones"]
      (.ControlChange 0 1 127) ()).calls =
      [.ListUint32 ⟨.Device, "/sink0"⟩ "Channels" (.ok [1, 2]),
       .Set ⟨.Device, "/sink0"⟩ "Volume" (.uint32s [65535, 65535]) none,
       .ListUint32 ⟨.Device, "/sink1"⟩ "Channels" (.ok [1, 2]),
       .Set ⟨.Device, "/sink1"⟩ "Volume" (.uint32s [65535, 65535]) none] :=
  ⟨by decide,
    (lookup_miss_is_noop (demoEnv [] [] []) demoClient
      (demoBinding .VolumeChange .Sink "Headphones") (by decide)).1 _ _,
    by decide, by decide⟩

/-- C3, counterexample. Two bindings with the MuteToggle effect match the message
ControlChange(0, 1, 64); the sink Headphones of the first is in no index map, the sink
Speakers of the second resolves to two sinks. In either order the message calls no
effect and makes no server call: the mute toggle of the resolvable binding is not
applied, because the ControlChange loop calls an effect for VolumeChange bindings
only. -/
theorem lookup_miss_counterexample :
    references demoClient .Sink "Headphones" = [] ∧
    references demoClient .Sink "Speakers" = ["/sink0", "/sink1"] ∧
    patternMatches (demoBinding .MuteToggle .Sink "Headphones") (.ControlChange 0 1 64) ∧
    patternMatches (demoBinding .MuteToggle .Sink "Speakers") (.ControlChange 0 1 64) ∧
    (onMessage (demoEnv [] [] []) demoClient
      [demoBinding .MuteToggle .Sink "Headphones", demoBinding .MuteToggle .Sink "Speakers"]
      (.ControlChange 0 1 64) ()).invocations = [] ∧
    (onMessage (demoEnv [] [] []) demoClient
      [demoBinding .MuteToggle .Sink "Speakers", demoBinding .MuteToggle .Sink "Headphones"]
      (.ControlChange 0 1 64) ()).invocations = [] ∧
    (ProcessMuteAction (demoEnv [] [] []) demoClient
      (demoBinding .MuteToggle .Sink "Speakers").Action ()).calls ≠ [] :=
  ⟨by decide, by decide, ⟨rfl, rfl, rfl⟩, ⟨rfl, rfl, rfl⟩, by decide,
    by decide, by decide⟩

/-! ## A write that fails -/

theorem volumeLoop_stops {σ : Type} (env : Env σ) (newVol : Nat) (objs : List Obj) (s : σ) :
    StopsAtFirstFailure objs (volumeLoop env newVol objs s) := by
  induction objs generalizing s with
  | nil => simp [StopsAtFirstFailure, volumeLoop, writtenObjs]
  | cons obj rest ih =>
    rcases h : env.setProp s obj "Volume"
      (.uint32s (volumeVector (env.listUint32 s obj "Channels") newVol)) with ⟨s1, _ | err⟩
    · obtain ⟨p1, p2, p3⟩ := ih s1
      simp only [StopsAtFirstFailure, volumeLoop, h]
      refine ⟨?_, ?_, ?_⟩
      · simpa [writtenObjs, Call.written] using (List.prefix_cons_inj obj).mpr p1
      · intro hn
        obtain ⟨q1, q2⟩ := p2 hn
        refine ⟨by simpa [writtenObjs, Call.written] using q1, ?_⟩
        intro call hc
        simp only [List.mem_cons] at hc
        rcases hc with rfl | rfl | hc
        · simp [Call.failedWrite]
        · simp [Call.failedWrite]
        · exact q2 call hc
      · intro e he
        obtain ⟨pre, o, pr, v, q1, q2⟩ := p3 e he
        refine ⟨_ :: _ :: pre, o, pr, v, by rw [q1]; rfl, ?_⟩
        intro call hc
        simp only [List.mem_cons] at hc
        rcases hc with rfl | rfl | hc
        · simp [Call.failedWrite]
        · simp [Call.failedWrite]
        · exact q2 call hc
    · simp only [StopsAtFirstFailure, volumeLoop, h]
      refine ⟨by simp [writtenObjs, Call.written, List.prefix_iff_eq_append], by simp, ?_⟩
      intro e he
      simp only [Option.some.injEq] at he
      subst he
      exact ⟨[_], _, _, _, rfl, by simp [Call.failedWrite]⟩

theorem muteLoop_stops {σ : Type} (env : Env σ) (objs : List Obj) (s : σ) :
    StopsAtFirstFailure objs (muteLoop env objs s) := by
  induction objs generalizing s with
  | nil => simp [StopsAtFirstFailure, muteLoop, writtenObjs]
  | cons obj rest ih =>
    rcases h : env.setProp s obj "Mute"
      (.bool (!(match env.getBool s obj "Mute" with
        | .ok b => b
        | .error _ => false))) with ⟨s1, _ | err⟩
    · obtain ⟨p1, p2, p3⟩ := ih s1
      simp only [StopsAtFirstFailure, muteLoop, h]
      refine ⟨?_, ?_, ?_⟩
      · simpa [writtenObjs, Call.written] using (List.prefix_cons_inj obj).mpr p1
      · intro hn
        obtain ⟨q1, q2⟩ := p2 hn
        refine ⟨by simpa [writtenObjs, Call.written] using q1, ?_⟩
        intro call hc
        simp only [List.mem_cons] at hc
        rcases hc with rfl | rfl | hc
        · simp [Call.failedWrite]
        · simp [Call.failedWrite]
        · exact q2 call hc
      · intro e he
        obtain ⟨pre, o, pr, v, q1, q2⟩ := p3 e he
        refine ⟨_ :: _ :: pre, o, pr, v, by rw [q1]; rfl, ?_⟩
        intro call hc
        simp only [List.mem_cons] at hc
        rcases hc with rfl | rfl | hc
        · simp [Call.failedWrite]
        · simp [Call.failedWrite]
        · exact q2 call hc
    · simp only [StopsAtFirstFailure, muteLoop, h]
      refine ⟨by simp [writtenObjs, Call.written, List.prefix_iff_eq_append], by simp, ?_⟩
      intro e he
      simp only [Option.some.injEq] at he
      subst he
      exact ⟨[_], _, _, _, rfl, by simp [Call.failedWrite]⟩

/-- C4, as amended. The writes of `ProcessVolumeAction` and of `ProcessMuteAction` go
to the matched endpoints in order and stop at the first one that fails: the method
returns that error at once, the failed write is its last server call, and no write
is attempted on the matched endpoints after it. When no write fails, every matched
endpoint is written. -/
theorem writes_stop_at_first_failure {σ : Type} (env : Env σ) (c : PAClient)
    (action : PulseAudioAction) (volume : F32) (s : σ) :
    StopsAtFirstFailure (targetObjects c action) (ProcessVolumeAction env c action volume s) ∧
    StopsAtFirstFailure (targetObjects c action) (ProcessMuteAction env c action s) := by
  constructor
  · unfold ProcessVolumeAction
    dsimp only
    split_ifs with h
    · exact volumeLoop_stops env _ _ s
    · have h0 : targetObjects c action = [] := by
        cases hl : targetObjects c action with
        | nil => rfl
        | cons a l => simp [hl] at h
      simp [StopsAtFirstFailure, h0, writtenObjs]
  · unfold ProcessMuteAction
    dsimp only
    split_ifs with h
    · exact muteLoop_stops env _ s
    · have h0 : targetObjects c action = [] := by
        cases hl : targetObjects c action with
        | nil => rfl
        | cons a l => simp [hl] at h
      simp [StopsAtFirstFailure, h0, writtenObjs]

/-- C4, counterexample. The name Speakers resolves to two sinks and the write to the
first fails: `ProcessVolumeAction` and `ProcessMuteAction` return the error after that
write, and neither makes any call on the second sink. -/
theorem write_failure_counterexample :
    targetObjects demoClient ⟨.VolumeChange, .Sink, "Speakers"⟩ =
      [⟨.Device, "/sink0"⟩, ⟨.Device, "/sink1"⟩] ∧
    ProcessVolumeAction (demoEnv [] [] ["/sink0"]) demoClient ⟨.VolumeChange, .Sink, "Speakers"⟩
        (fraction 127 127) () =
      ⟨(), some "write failed",
        [.ListUint32 ⟨.Device, "/sink0"⟩ "Channels" (.ok [1, 2]),
         .Set ⟨.Device, "/sink0"⟩ "Volume" (.uint32s [65535, 65535]) (some "write failed")]⟩ ∧
    ProcessMuteAction (demoEnv [] [] ["/sink0"]) demoClient ⟨.MuteToggle, .Sink, "Speakers"⟩ () =
      ⟨(), some "write failed",
        [.Bool ⟨.Device, "/sink0"⟩ "Mute" (.ok false),
         .Set ⟨.Device, "/sink0"⟩ "Mute" (.bool true) (some "write failed")]⟩ ∧
    (⟨.Device, "/sink1"⟩ : Obj) ∉ writtenObjs (ProcessVolumeAction (demoEnv [] [] ["/sink0"])
      demoClient ⟨.VolumeChange, .Sink, "Speakers"⟩ (fraction 127 127) ()).calls ∧
    (⟨.Device, "/sink1"⟩ : Obj) ∉ writtenObjs (ProcessMuteAction (demoEnv [] [] ["/sink0"])
      demoClient ⟨.MuteToggle, .Sink, "Speakers"⟩ ()).calls := by
  refine ⟨by decide, by decide, by decide, by decide, by decide⟩

/-! ## The name index: maps -/

theorem lookup_append_single (m : NameIndex) (k n : String) (v : List ObjectPath) :
    List.lookup n (m ++ [(k, v)]) =
      match List.lookup n m with
      | some x => some x
      | none => if n = k then some v else none := by
  induction m with
  | nil =>
    by_cases h : n = k
    · simp [List.lookup_cons, h]
    · have h2 : (n == k) = false := by simpa using h
      simp [List.lookup_cons, h, h2]
  | cons a rest ih =>
    rcases a with ⟨a1, a2⟩
    by_cases h : n = a1
    · simp [List.lookup_cons, h]
    · have h2 : (n == a1) = false := by simpa using h
      simp only [List.cons_append, List.lookup_cons, h2, ih]

theorem lookup_map_replace (m : NameIndex) (k n : String) (v : List ObjectPath) :
    List.lookup n (m.map (fun e => if e.1 = k then (k, v) else e)) =
      if n = k then (List.lookup k m).map (fun _ => v) else List.lookup n m := by
  induction m with
  | nil => simp
  | cons a rest ih =>
    rcases a with ⟨a1, a2⟩
    simp only [List.map_cons, List.lookup_cons]
    by_cases hk : a1 = k
    · subst hk
      simp only [if_true, List.lookup_cons]
      by_cases hn : n = a1
      · subst hn
        simp
      · have h2 : (n == a1) = false := by simpa using hn
        simp [h2, ih, hn]
    · simp only [hk, if_false]
      by_cases hn : n = k
      · subst hn
        have h2 : (n == a1) = false := by simpa using (Ne.symm hk)
        simp [List.lookup_cons, h2, ih]
      · by_cases hna : n = a1
        · subst hna
          simp [List.lookup_cons, hn]
        · have h2 : (n == a1) = false := by simpa using hna
          simp [List.lookup_cons, h2, ih, hn]

theorem mapGet_mapSet (m : NameIndex) (k n : String) (v : List ObjectPath) :
    mapGet (mapSet m k v) n = if n = k then some v else mapGet m n := by
  unfold mapSet
  cases h : mapGet m k with
  | none =>
    simp only [mapGet] at h ⊢
    rw [lookup_append_single]
    by_cases hn : n = k
    · subst hn
      simp [h]
    · simp only [hn, if_false]
      cases List.lookup n m <;> rfl
  | some x =>
    simp only [mapGet] at h ⊢
    rw [lookup_map_replace]
    by_cases hn : n = k
    · simp [hn, h]
    · simp [hn]

theorem lookup_none_not_mem (m : NameIndex) (k : String) (h : List.lookup k m = none) :
    k ∉ mapKeys m := by
  induction m with
  | nil => simp [mapKeys]
  | cons a rest ih =>
    rcases a with ⟨a1, a2⟩
    by_cases hk : k = a1
    · subst hk
      simp [List.lookup_cons] at h
    · have h2 : (k == a1) = false := by simpa using hk
      simp only [List.lookup_cons, h2] at h
      have := ih h
      simp only [mapKeys, List.map_cons, List.mem_cons, not_or] at this ⊢
      exact ⟨hk, this⟩

theorem mapKeys_mapSet_nodup (m : NameIndex) (k : String) (v : List ObjectPath)
    (h : (mapKeys m).Nodup) : (mapKeys (mapSet m k v)).Nodup := by
  unfold mapSet
  cases hg : mapGet m k with
  | none =>
    have hk := lookup_none_not_mem m k hg
    simp only [mapKeys, List.map_append, List.map_cons, List.map_nil] at hk ⊢
    exact List.Nodup.append h (by simp) (by simpa using hk)
  | some x =>
    have e : mapKeys (m.map (fun e => if e.1 = k then (k, v) else e)) = mapKeys m := by
      simp only [mapKeys, List.map_map]
      apply List.map_congr_left
      intro a _
      by_cases ha : a.1 = k
      · simp [ha]
      · simp [ha]
    simpa [e] using h

theorem mapGet_indexPath (m : NameIndex) (props : List (String × String)) (key : String)
    (path : ObjectPath) (n : String) :
    mapGet (indexPath m props key path) n =
      if props.lookup key = some n then some ((mapGet m n).getD [] ++ [path])
      else mapGet m n := by
  unfold indexPath
  cases hp : props.lookup key with
  | none => simp
  | some name =>
    by_cases hn : n = name
    · subst hn
      cases hg : mapGet m n with
      | none => simp [hg, mapGet_mapSet]
      | some ps => simp [hg, mapGet_mapSet]
    · have hn2 : ¬ name = n := fun h => hn h.symm
      cases hg : mapGet m name with
      | none => simp [hg, mapGet_mapSet, hn, hn2]
      | some ps => simp [hg, mapGet_mapSet, hn, hn2]

theorem mapKeys_indexPath_nodup (m : NameIndex) (props : List (String × String))
    (key : String) (path : ObjectPath) (h : (mapKeys m).Nodup) :
    (mapKeys (indexPath m props key path)).Nodup := by
  unfold indexPath
  split
  · split
    · exact mapKeys_mapSet_nodup m _ _ h
    · exact mapKeys_mapSet_nodup m _ _ h
  · exact h

/-! ## The name index: one loop of the refresh -/

theorem indexLoop_ok {σ : Type} (env : Env σ) (s : σ) (kind : ObjKind) (key : String)
    (paths : List ObjectPath) (m m1 : NameIndex) (l : List Call)
    (h : indexLoop env s kind key paths m = (.ok m1, l)) (hm : (mapKeys m).Nodup) :
    (mapKeys m1).Nodup ∧
    (∀ n, mapGet m1 n =
      mergeEntry (mapGet m n) (paths.filter (fun p => displayName env s kind key p = some n))) ∧
    ∀ call ∈ l, call.failure = none := by
  induction paths generalizing m l with
  | nil =>
    simp only [indexLoop, Prod.mk.injEq, Except.ok.injEq] at h
    obtain ⟨rfl, rfl⟩ := h
    exact ⟨hm, by simp [mergeEntry], by simp⟩
  | cons p rest ih =>
    unfold indexLoop at h
    cases hp : env.mapString s ⟨kind, p⟩ "PropertyList" with
    | error err => simp [hp] at h
    | ok props =>
      simp only [hp, Prod.mk.injEq] at h
      obtain ⟨h1, rfl⟩ := h
      obtain ⟨q1, q2, q3⟩ := ih (indexPath m props key p) _ (Prod.ext h1 rfl)
        (mapKeys_indexPath_nodup m props key p hm)
      refine ⟨q1, ?_, ?_⟩
      · intro n
        rw [q2 n, mapGet_indexPath]
        have hd : displayName env s kind key p = props.lookup key := by
          simp [displayName, hp]
        by_cases hn : props.lookup key = some n
        · simp only [hn, if_true, List.filter_cons, hd, decide_True]
          by_cases hr : rest.filter (fun p => displayName env s kind key p = some n) = []
          · simp [mergeEntry, hr]
          · simp [mergeEntry, hr]
        · simp only [hn, if_false, List.filter_cons, hd, decide_False]
          rfl
      · intro call hc
        simp only [List.mem_cons] at hc
        rcases hc with rfl | hc
        · simp [Call.failure]
        · exact q3 call hc

theorem indexLoop_error {σ : Type} (env : Env σ) (s : σ) (kind : ObjKind) (key : String)
    (paths : List ObjectPath) (m : NameIndex) (e : Error) (l : List Call)
    (h : indexLoop env s kind key paths m = (.error e, l)) :
    (∀ call ∈ l, call.failure = none ∨ call.failure = some (some kind, e)) ∧
    ∃ p ∈ paths, Call.MapString ⟨kind, p⟩ "PropertyList" (.error e) ∈ l := by
  induction paths generalizing m l with
  | nil => simp [indexLoop] at h
  | cons p rest ih =>
    unfold indexLoop at h
    cases hp : env.mapString s ⟨kind, p⟩ "PropertyList" with
    | error err =>
      simp only [hp, Prod.mk.injEq, Except.error.injEq] at h
      obtain ⟨rfl, rfl⟩ := h
      exact ⟨by simp [Call.failure], p, by simp, by simp⟩
    | ok props =>
      simp only [hp, Prod.mk.injEq] at h
      obtain ⟨h1, rfl⟩ := h
      obtain ⟨q1, p1, hp1, hmem⟩ := ih (indexPath m props key p) _ (Prod.ext h1 rfl)
      refine ⟨?_, p1, List.mem_cons_of_mem _ hp1, List.mem_cons_of_mem _ hmem⟩
      intro call hc
      simp only [List.mem_cons] at hc
      rcases hc with rfl | hc
      · simp [Call.failure]
      · exact q1 call hc

/-! ## The name index: the refresh -/

theorem failure_none_imp {l : List Call} (h : ∀ call ∈ l, call.failure = none)
    (G : Option ObjKind × Error → Prop) :
    ∀ call ∈ l, ∀ f, call.failure = some f → G f := by
  intro call hc f hf
  rw [h call hc] at hf
  cases hf

theorem failure_one_imp {l : List Call} {f0 : Option ObjKind × Error}
    (h : ∀ call ∈ l, call.failure = none ∨ call.failure = some f0)
    (G : Option ObjKind × Error → Prop) (hG : G f0) :
    ∀ call ∈ l, ∀ f, call.failure = some f → G f := by
  intro call hc f hf
  rcases h call hc with h1 | h1
  · rw [h1] at hf
    cases hf
  · rw [h1] at hf
    cases hf
    exact hG

theorem RefreshStreams_failure {σ : Type} (env : Env σ) (s : σ) (c : PAClient) :
    ∀ call ∈ (RefreshStreams env s c).calls, ∀ f, call.failure = some f →
      (RefreshStreams env s c).client = c ∧
      (RefreshStreams env s c).outcome = outcomeOfFailure f := by
  unfold RefreshStreams
  cases h1 : env.listPath s "PlaybackStreams" with
  | error e => simp [Call.failure, outcomeOfFailure]
  | ok ps =>
    rcases h2 : indexLoop env s .Stream "application.name" ps [] with ⟨e | m1, l1⟩
    · have q1 := (indexLoop_error _ _ _ _ _ _ _ _ h2).1
      simp only [h2]
      simp only [List.forall_mem_append, List.forall_mem_singleton]
      refine ⟨by simp [Call.failure], failure_one_imp q1 _ ⟨trivial, rfl⟩⟩
    · have q1 := (indexLoop_ok _ _ _ _ _ _ _ _ h2 (by simp [mapKeys])).2.2
      simp only [h2]
      cases h3 : env.listPath s "RecordStreams" with
      | error e =>
        simp only [List.forall_mem_append, List.forall_mem_singleton]
        exact ⟨⟨by simp [Call.failure], failure_none_imp q1 _⟩,
          by simp [Call.failure, outcomeOfFailure]⟩
      | ok rs =>
        rcases h4 : indexLoop env s .Stream "application.name" rs [] with ⟨e | m2, l2⟩
        · have q2 := (indexLoop_error _ _ _ _ _ _ _ _ h4).1
          simp only [h4]
          simp only [List.forall_mem_append, List.forall_mem_singleton]
          exact ⟨⟨⟨by simp [Call.failure], failure_none_imp q1 _⟩, by simp [Call.failure]⟩,
            failure_one_imp q2 _ ⟨trivial, rfl⟩⟩
        · have q2 := (indexLoop_ok _ _ _ _ _ _ _ _ h4 (by simp [mapKeys])).2.2
          simp only [h4]
          cases h5 : env.listPath s "Sinks" with
          | error e =>
            simp only [List.forall_mem_append, List.forall_mem_singleton]
            exact ⟨⟨⟨⟨by simp [Call.failure], failure_none_imp q1 _⟩, by simp [Call.failure]⟩,
              failure_none_imp q2 _⟩, by simp [Call.failure, outcomeOfFailure]⟩
          | ok sk =>
            rcases h6 : indexLoop env s .Device "device.description" sk [] with ⟨e | m3, l3⟩
            · have q3 := (indexLoop_error _ _ _ _ _ _ _ _ h6).1
              simp only [h6]
              simp only [List.forall_mem_append, List.forall_mem_singleton]
              exact ⟨⟨⟨⟨⟨by simp [Call.failure], failure_none_imp q1 _⟩,
                by simp [Call.failure]⟩, failure_none_imp q2 _⟩, by simp [Call.failure]⟩,
                failure_one_imp q3 _ ⟨trivial, rfl⟩⟩
            · have q3 := (indexLoop_ok _ _ _ _ _ _ _ _ h6 (by simp [mapKeys])).2.2
              simp only [h6]
              cases h7 : env.listPath s "Sources" with
              | error e =>
                simp only [List.forall_mem_append, List.forall_mem_singleton]
                exact ⟨⟨⟨⟨⟨⟨by simp [Call.failure], failure_none_imp q1 _⟩,
                  by simp [Call.failure]⟩, failure_none_imp q2 _⟩, by simp [Call.failure]⟩,
                  failure_none_imp q3 _⟩, by simp [Call.failure, outcomeOfFailure]⟩
              | ok so =>
                rcases h8 : indexLoop env s .Device "device.description" so [] with
                  ⟨e | m4, l4⟩
                · have q4 := (indexLoop_error _ _ _ _ _ _ _ _ h8).1
                  simp only [h8]
                  simp only [List.forall_mem_append, List.forall_mem_singleton]
                  exact ⟨⟨⟨⟨⟨⟨⟨by simp [Call.failure], failure_none_imp q1 _⟩,
                    by simp [Call.failure]⟩, failure_none_imp q2 _⟩, by simp [Call.failure]⟩,
                    failure_none_imp q3 _⟩, by simp [Call.failure]⟩,
                    failure_one_imp q4 _ ⟨trivial, rfl⟩⟩
                · have q4 := (indexLoop_ok _ _ _ _ _ _ _ _ h8 (by simp [mapKeys])).2.2
                  simp only [h8]
                  simp only [List.forall_mem_append, List.forall_mem_singleton]
                  exact ⟨⟨⟨⟨⟨⟨⟨by simp [Call.failure], failure_none_imp q1 _⟩,
                    by simp [Call.failure]⟩, failure_none_imp q2 _⟩, by simp [Call.failure]⟩,
                    failure_none_imp q3 _⟩, by simp [Call.failure]⟩,
                    failure_none_imp q4 _⟩

theorem lookup_of_mem_nodup (m : NameIndex) (n : String) (l : List ObjectPath)
    (hm : (mapKeys m).Nodup) (h : (n, l) ∈ m) : mapGet m n = some l := by
  induction m with
  | nil => simp at h
  | cons a rest ih =>
    rcases a with ⟨a1, a2⟩
    simp only [mapKeys, List.map_cons, List.nodup_cons, List.mem_map, not_exists, not_and] at hm
    simp only [List.mem_cons, Prod.mk.injEq] at h
    rcases h with ⟨rfl, rfl⟩ | h
    · simp [mapGet, List.lookup_cons]
    · have hne : n ≠ a1 := by
        rintro rfl
        exact hm.1 (n, l) h rfl
      have h2 : (n == a1) = false := by simpa using hne
      simp only [mapGet, List.lookup_cons, h2]
      exact ih hm.2 h

theorem indexLoop_isIndex {σ : Type} (env : Env σ) (s : σ) (kind : ObjKind) (key : String)
    (paths : List ObjectPath) (m1 : NameIndex) (l : List Call)
    (h : indexLoop env s kind key paths [] = (.ok m1, l)) :
    IsIndexOf env s kind key paths m1 := by
  obtain ⟨q1, q2, _⟩ := indexLoop_ok env s kind key paths [] m1 l h (by simp [mapKeys])
  have q : ∀ name, mapGet m1 name = entryOf env s kind key paths name := by
    intro name
    rw [q2 name]
    simp [mergeEntry, entryOf, mapGet]
  refine ⟨q1, q, ?_⟩
  intro name l1 hmem
  have h1 := lookup_of_mem_nodup m1 name l1 q1 hmem
  rw [q name] at h1
  unfold entryOf at h1
  dsimp only at h1
  split_ifs at h1 with h2
  simp only [Option.some.injEq] at h1
  subst h1
  exact ⟨h2, rfl⟩

theorem RefreshStreams_ok {σ : Type} (env : Env σ) (s : σ) (c : PAClient)
    (h : (RefreshStreams env s c).outcome = .ok) :
    ∃ ps m1 l1 rs m2 l2 sk m3 l3 so m4 l4,
      env.listPath s "PlaybackStreams" = .ok ps ∧
      indexLoop env s .Stream "application.name" ps [] = (.ok m1, l1) ∧
      env.listPath s "RecordStreams" = .ok rs ∧
      indexLoop env s .Stream "application.name" rs [] = (.ok m2, l2) ∧
      env.listPath s "Sinks" = .ok sk ∧
      indexLoop env s .Device "device.description" sk [] = (.ok m3, l3) ∧
      env.listPath s "Sources" = .ok so ∧
      indexLoop env s .Device "device.description" so [] = (.ok m4, l4) ∧
      ∀ c0, RefreshStreams env s c0 =
        ⟨{ playbackStreamsByName := m1, recordStreamsByName := m2, sourcesByName := m4,
           sinksByName := m3 }, .ok,
          [Call.ListPath "PlaybackStreams" (.ok ps)] ++ l1 ++
            [Call.ListPath "RecordStreams" (.ok rs)] ++ l2 ++
            [Call.ListPath "Sinks" (.ok sk)] ++ l3 ++
            [Call.ListPath "Sources" (.ok so)] ++ l4⟩ := by
  unfold RefreshStreams at h
  cases h1 : env.listPath s "PlaybackStreams" with
  | error e => simp [h1] at h
  | ok ps =>
    rcases h2 : indexLoop env s .Stream "application.name" ps [] with ⟨e | m1, l1⟩
    · simp [h1, h2] at h
    · cases h3 : env.listPath s "RecordStreams" with
      | error e => simp [h1, h2, h3] at h
      | ok rs =>
        rcases h4 : indexLoop env s .Stream "application.name" rs [] with ⟨e | m2, l2⟩
        · simp [h1, h2, h3, h4] at h
        · cases h5 : env.listPath s "Sinks" with
          | error e => simp [h1, h2, h3, h4, h5] at h
          | ok sk =>
            rcases h6 : indexLoop env s .Device "device.description" sk [] with ⟨e | m3, l3⟩
            · simp [h1, h2, h3, h4, h5, h6] at h
            · cases h7 : env.listPath s "Sources" with
              | error e => simp [h1, h2, h3, h4, h5, h6, h7] at h
              | ok so =>
                rcases h8 : indexLoop env s .Device "device.description" so [] with
                  ⟨e | m4, l4⟩
                · simp [h1, h2, h3, h4, h5, h6, h7, h8] at h
                · refine ⟨ps, m1, l1, rs, m2, l2, sk, m3, l3, so, m4, l4,
                    rfl, h2, rfl, h4, rfl, h6, rfl, h8, ?_⟩
                  intro c0
                  simp only [RefreshStreams, h1, h2, h3, h4, h5, h6, h7, h8]

/-- C5. After a successful `RefreshStreams`, each of the four maps is the index of
the paths enumerated for its category (by `application.name` for playback and record
streams, by `device.description` for sinks and sources): there is one entry per name,
the entry of a name is the list, in enumeration order, of the enumerated paths whose
property list gives that name, a name no enumerated path carries has no entry, no
entry is empty, and a path without the property is in no entry. The result does not
depend on the index before the call: any other previous index gives the same result. -/
theorem refresh_rebuilds_index {σ : Type} (env : Env σ) (s : σ) (c : PAClient)
    (hok : (RefreshStreams env s c).outcome = .ok) :
    ∃ ps rs sk so,
      env.listPath s "PlaybackStreams" = .ok ps ∧ env.listPath s "RecordStreams" = .ok rs ∧
      env.listPath s "Sinks" = .ok sk ∧ env.listPath s "Sources" = .ok so ∧
      IsIndexOf env s .Stream "application.name" ps
        (RefreshStreams env s c).client.playbackStreamsByName ∧
      IsIndexOf env s .Stream "application.name" rs
        (RefreshStreams env s c).client.recordStreamsByName ∧
      IsIndexOf env s .Device "device.description" sk
        (RefreshStreams env s c).client.sinksByName ∧
      IsIndexOf env s .Device "device.description" so
        (RefreshStreams env s c).client.sourcesByName ∧
      ∀ c0, RefreshStreams env s c0 = RefreshStreams env s c := by
  obtain ⟨ps, m1, l1, rs, m2, l2, sk, m3, l3, so, m4, l4, h1, h2, h3, h4, h5, h6, h7, h8, hr⟩ :=
    RefreshStreams_ok env s c hok
  refine ⟨ps, rs, sk, so, h1, h3, h5, h7, ?_, ?_, ?_, ?_, ?_⟩
  · rw [hr c]
    exact indexLoop_isIndex env s _ _ ps m1 l1 h2
  · rw [hr c]
    exact indexLoop_isIndex env s _ _ rs m2 l2 h4
  · rw [hr c]
    exact indexLoop_isIndex env s _ _ sk m3 l3 h6
  · rw [hr c]
    exact indexLoop_isIndex env s _ _ so m4 l4 h8
  · intro c0
    rw [hr c0, hr c]

/-- C5, witness: a refresh against the example server replaces a stale index by the
index of the example server. -/
theorem refresh_rebuilds_index_witness :
    (RefreshStreams (demoEnv [] [] []) () staleClient).client = demoClient ∧
    ∃ ps rs sk so,
      (demoEnv [] [] []).listPath () "PlaybackStreams" = .ok ps ∧
      (demoEnv [] [] []).listPath () "RecordStreams" = .ok rs ∧
      (demoEnv [] [] []).listPath () "Sinks" = .ok sk ∧
      (demoEnv [] [] []).listPath () "Sources" = .ok so ∧
      IsIndexOf (demoEnv [] [] []) () .Stream "application.name" ps
        (RefreshStreams (demoEnv [] [] []) () staleClient).client.playbackStreamsByName ∧
      IsIndexOf (demoEnv [] [] []) () .Stream "application.name" rs
        (RefreshStreams (demoEnv [] [] []) () staleClient).client.recordStreamsByName ∧
      IsIndexOf (demoEnv [] [] []) () .Device "device.description" sk
        (RefreshStreams (demoEnv [] [] []) () staleClient).client.sinksByName ∧
      IsIndexOf (demoEnv [] [] []) () .Device "device.description" so
        (RefreshStreams (demoEnv [] [] []) () staleClient).client.sourcesByName ∧
      ∀ c0, RefreshStreams (demoEnv [] [] []) () c0 =
        RefreshStreams (demoEnv [] [] []) () staleClient :=
  ⟨by decide, refresh_rebuilds_index (demoEnv [] [] []) () staleClient (by decide)⟩

/-- C6. When an enumeration (`ListPath` of PlaybackStreams, RecordStreams, Sinks or
Sources) fails during `RefreshStreams`, the call returns that error and the four maps
of the client are what they were before the call, whichever enumerations and
property reads had succeeded before. -/
theorem enumeration_failure_keeps_index {σ : Type} (env : Env σ) (s : σ) (c : PAClient)
    (name : String) (e : Error)
    (h : Call.ListPath name (.error e) ∈ (RefreshStreams env s c).calls) :
    (RefreshStreams env s c).outcome = .returned e ∧ (RefreshStreams env s c).client = c := by
  have q := RefreshStreams_failure env s c _ h (none, e) rfl
  exact ⟨q.2, q.1⟩

/-- C6, witness: the enumeration of the sinks fails after the playback and record
streams were enumerated and read; the call returns the error and the stale index stays. -/
theorem enumeration_failure_keeps_index_witness :
    Call.ListPath "Sinks" (.error "enumeration failed") ∈
      (RefreshStreams (demoEnv ["Sinks"] [] []) () staleClient).calls ∧
    Call.ListPath "RecordStreams" (.ok ["/rec0", "/rec1"]) ∈
      (RefreshStreams (demoEnv ["Sinks"] [] []) () staleClient).calls ∧
    (RefreshStreams (demoEnv ["Sinks"] [] []) () staleClient).outcome =
      .returned "enumeration failed" ∧
    (RefreshStreams (demoEnv ["Sinks"] [] []) () staleClient).client = staleClient :=
  ⟨by decide, by decide,
    enumeration_failure_keeps_index (demoEnv ["Sinks"] [] []) () staleClient "Sinks"
      "enumeration failed" (by decide)⟩

/-- C7, as amended. A `PropertyList` read that fails during `RefreshStreams` ends the
refresh: when the object is a playback or record stream the call returns the error,
when it is a sink or a source the call panics with it, and in both cases no new index
is installed: the four maps of the client are what they were before the call. -/
theorem property_read_failure_aborts {σ : Type} (env : Env σ) (s : σ) (c : PAClient)
    (obj : Obj) (prop : String) (e : Error)
    (h : Call.MapString obj prop (.error e) ∈ (RefreshStreams env s c).calls) :
    (RefreshStreams env s c).client = c ∧
    (obj.kind = .Stream → (RefreshStreams env s c).outcome = .returned e) ∧
    (obj.kind = .Device → (RefreshStreams env s c).outcome = .panicked e) := by
  have q := RefreshStreams_failure env s c _ h (some obj.kind, e) rfl
  refine ⟨q.1, ?_, ?_⟩
  · intro hk
    rw [q.2, hk]
    rfl
  · intro hk
    rw [q.2, hk]
    rfl

/-- C7, witness: the read of the stream `/stream1` fails and the call returns the
error; the read of the sink `/sink1` fails and the call panics; the index stays. -/
theorem property_read_failure_aborts_witness :
    (RefreshStreams (demoEnv [] ["/stream1"] []) () staleClient).client = staleClient ∧
    (RefreshStreams (demoEnv [] ["/stream1"] []) () staleClient).outcome =
      .returned "read failed" ∧
    (RefreshStreams (demoEnv [] ["/sink1"] []) () staleClient).outcome =
      .panicked "read failed" :=
  ⟨(property_read_failure_aborts (demoEnv [] ["/stream1"] []) () staleClient
      ⟨.Stream, "/stream1"⟩ "PropertyList" "read failed" (by decide)).1,
    (property_read_failure_aborts (demoEnv [] ["/stream1"] []) () staleClient
      ⟨.Stream, "/stream1"⟩ "PropertyList" "read failed" (by decide)).2.1 rfl,
    (property_read_failure_aborts (demoEnv [] ["/sink1"] []) () staleClient
      ⟨.Device, "/sink1"⟩ "PropertyList" "read failed" (by decide)).2.2 rfl⟩

/-- C7, counterexample. All four enumerations succeed and the `PropertyList` read of
one playback stream, `/stream1`, fails: `RefreshStreams` returns the error and
installs nothing, so the stream `/stream0` of Firefox, enumerated and read before
it, is in no index. With the failed read on the sink `/sink1` the call panics. -/
theorem property_read_failure_counterexample :
    (demoEnv [] ["/stream1"] []).listPath () "PlaybackStreams" =
      .ok ["/stream0", "/stream1", "/stream2"] ∧
    (demoEnv [] ["/stream1"] []).listPath () "RecordStreams" = .ok ["/rec0", "/rec1"] ∧
    (demoEnv [] ["/stream1"] []).listPath () "Sinks" = .ok ["/sink0", "/sink1"] ∧
    (demoEnv [] ["/stream1"] []).listPath () "Sources" = .ok ["/source0"] ∧
    (demoEnv [] ["/stream1"] []).mapString () ⟨.Stream, "/stream0"⟩ "PropertyList" =
      .ok [("application.name", "Firefox")] ∧
    RefreshStreams (demoEnv [] ["/stream1"] []) () NewPAClient =
      ⟨NewPAClient, .returned "read failed",
        [.ListPath "PlaybackStreams" (.ok ["/stream0", "/stream1", "/stream2"]),
         .MapString ⟨.Stream, "/stream0"⟩ "PropertyList" (.ok [("application.name", "Firefox")]),
         .MapString ⟨.Stream, "/stream1"⟩ "PropertyList" (.error "read failed")]⟩ ∧
    mapGet (RefreshStreams (demoEnv [] ["/stream1"] []) () NewPAClient).client.playbackStreamsByName
      "Firefox" = none ∧
    (RefreshStreams (demoEnv [] ["/sink1"] []) () NewPAClient).outcome =
      .panicked "read failed" ∧
    (RefreshStreams (demoEnv [] ["/sink1"] []) () NewPAClient).client = NewPAClient := by
  refine ⟨by decide, by decide, by decide, by decide, by decide, by decide, by decide,
    by decide, by decide⟩

/-! ## LED feedback: the writer -/

theorem writerWrite_eq (notes : NoteState) (m : MidiOut) :
    writerWrite notes m =
      (ledStep notes m, if m.lights = notes m.key then [] else [m]) := by
  cases m with
  | NoteOn key velocity =>
    simp only [writerWrite, ledStep, MidiOut.key, MidiOut.lights]
    by_cases hv : 0 < velocity
    · by_cases hn : notes key = true
      · simp [hv, hn]
      · have hn2 : notes key = false := by simpa using hn
        have hv0 : velocity ≠ 0 := by omega
        simp [hv, hn2, hv0]
    · have hv0 : velocity = 0 := by omega
      by_cases hn : notes key = true
      · simp [hv0, hn]
      · have hn2 : notes key = false := by simpa using hn
        simp [hv0, hn2]
  | NoteOff key =>
    simp only [writerWrite, ledStep, MidiOut.key, MidiOut.lights]
    by_cases hn : notes key = true
    · simp [hn]
    · have hn2 : notes key = false := by simpa using hn
      simp [hn2]

theorem writeAll_append (notes : NoteState) (a b : List MidiOut) :
    writeAll notes (a ++ b) =
      ((writeAll (writeAll notes a).1 b).1, (writeAll notes a).2 ++ (writeAll (writeAll notes a).1 b).2) := by
  induction a generalizing notes with
  | nil => simp [writeAll]
  | cons m rest ih => simp [writeAll, ih, List.append_assoc]

theorem writeAll_notes (notes : NoteState) (msgs : List MidiOut) :
    (writeAll notes msgs).1 = ledsAfter notes msgs := by
  induction msgs generalizing notes with
  | nil => rfl
  | cons m rest ih =>
    simp only [writeAll, ih, writerWrite_eq, ledsAfter, List.foldl_cons]

theorem writeAll_sent_mem (notes : NoteState) (msgs : List MidiOut) :
    ∀ m ∈ (writeAll notes msgs).2, m ∈ msgs := by
  induction msgs generalizing notes with
  | nil => simp [writeAll]
  | cons m rest ih =>
    intro x hx
    simp only [writeAll, writerWrite_eq, List.mem_append] at hx
    rcases hx with hx | hx
    · split_ifs at hx with h
      · simp at hx
      · simp only [List.mem_singleton] at hx
        subst hx
        exact List.mem_cons_self _ _
    · exact List.mem_cons_of_mem _ (ih _ x hx)

theorem ledsAfter_append (leds : Nat → Bool) (a b : List MidiOut) :
    ledsAfter leds (a ++ b) = ledsAfter (ledsAfter leds a) b := by
  simp [ledsAfter, List.foldl_append]

theorem ledsAfter_untouched (out : List MidiOut) (leds : Nat → Bool) (key : Nat)
    (h : ∀ m ∈ out, m.key ≠ key) : ledsAfter leds out key = leds key := by
  induction out generalizing leds with
  | nil => rfl
  | cons m rest ih =>
    have hm := h m (List.mem_cons_self _ _)
    have hr := ih (ledStep leds m) (fun x hx => h x (List.mem_cons_of_mem _ hx))
    simp only [ledsAfter, List.foldl_cons] at hr ⊢
    rw [hr]
    simp [ledStep, Function.update, Ne.symm hm]

theorem ledsAfter_last (out : List MidiOut) (leds : Nat → Bool) (key : Nat) (b : Bool)
    (hall : ∀ m ∈ out, m.key = key → m.lights = b) (h : ∃ m ∈ out, m.key = key) :
    ledsAfter leds out key = b := by
  induction out generalizing leds with
  | nil => simp at h
  | cons m rest ih =>
    by_cases hr : ∃ x ∈ rest, x.key = key
    · exact ih (ledStep leds m) (fun x hx => hall x (List.mem_cons_of_mem _ hx)) hr
    · have hr2 : ∀ x ∈ rest, x.key ≠ key := fun x hx hk => hr ⟨x, hx, hk⟩
      have hm : m.key = key := by
        obtain ⟨x, hx, hk⟩ := h
        rcases List.mem_cons.mp hx with rfl | hx
        · exact hk
        · exact (hr2 x hx hk).elim
      have hl := hall m (List.mem_cons_self _ _) hm
      have := ledsAfter_untouched rest (ledStep leds m) key hr2
      simp only [ledsAfter, List.foldl_cons] at this ⊢
      rw [this]
      subst hm
      simp [ledStep, hl]

/-- The LED of a key and the writer's note for it, once they agree, agree after
any messages written through the writer. -/
theorem writeAll_coherent (msgs : List MidiOut) (notes : NoteState) (leds : Nat → Bool)
    (key : Nat) (h : leds key = notes key) :
    ledsAfter leds (writeAll notes msgs).2 key = (writeAll notes msgs).1 key := by
  induction msgs generalizing notes leds with
  | nil => simpa [writeAll, ledsAfter] using h
  | cons m rest ih =>
    simp only [writeAll, writerWrite_eq]
    split_ifs with hd
    · simp only [List.nil_append]
      apply ih
      by_cases hk : m.key = key
      · subst hk
        simp [ledStep, hd, h]
      · simp [ledStep, Function.update, Ne.symm hk, h]
    · simp only [List.singleton_append, ledsAfter, List.foldl_cons]
      apply ih
      by_cases hk : m.key = key
      · subst hk
        simp [ledStep]
      · simp [ledStep, Function.update, Ne.symm hk, h]

/-- When every message for a key asks for the state the writer already has for it,
the writer passes none of them on. -/
theorem writeAll_dropped (msgs : List MidiOut) (notes : NoteState) (key : Nat)
    (h : ∀ m ∈ msgs, m.key = key → m.lights = notes key) :
    ∀ m ∈ (writeAll notes msgs).2, m.key ≠ key := by
  induction msgs generalizing notes with
  | nil => simp [writeAll]
  | cons m rest ih =>
    have hm := h m (List.mem_cons_self _ _)
    have hrest : ∀ x ∈ rest, x.key = key → x.lights = (ledStep notes m) key := by
      intro x hx hk
      rw [h x (List.mem_cons_of_mem _ hx) hk]
      by_cases hmk : m.key = key
      · have := hm hmk
        subst hmk
        simp [ledStep, this]
      · simp [ledStep, Function.update, Ne.symm hmk]
    intro x hx
    simp only [writeAll, writerWrite_eq, List.mem_append] at hx
    rcases hx with hx | hx
    · split_ifs at hx with hd
      · simp at hx
      · simp only [List.mem_singleton] at hx
        subst hx
        intro hk
        exact hd (by rw [hm hk, hk])
    · exact ih _ hrest x hx

/-- When some message for a key asks for another state than the writer has for it,
the writer passes a message for the key on, and the LED ends in the writer's state. -/
theorem writeAll_changed (msgs : List MidiOut) (notes : NoteState) (leds : Nat → Bool)
    (key : Nat) (h : ∃ m ∈ msgs, m.key = key ∧ m.lights ≠ notes key) :
    (∃ m ∈ (writeAll notes msgs).2, m.key = key) ∧
    ledsAfter leds (writeAll notes msgs).2 key = (writeAll notes msgs).1 key := by
  induction msgs generalizing notes leds with
  | nil => simp at h
  | cons m rest ih =>
    simp only [writeAll, writerWrite_eq]
    by_cases hk : m.key = key
    · by_cases hd : m.lights = notes m.key
      · have hrest : ∃ x ∈ rest, x.key = key ∧ x.lights ≠ (ledStep notes m) key := by
          obtain ⟨x, hx, hxk, hxl⟩ := h
          rcases List.mem_cons.mp hx with rfl | hx
          · exact (hxl (by rw [hd, hxk])).elim
          · refine ⟨x, hx, hxk, ?_⟩
            have : ledStep notes m key = notes key := by
              subst hk
              simp [ledStep, hd]
            rwa [this]
        simp only [if_pos hd, List.nil_append]
        exact ih _ leds hrest
      · simp only [if_neg hd, List.singleton_append, ledsAfter, List.foldl_cons]
        refine ⟨⟨m, List.mem_cons_self _ _, hk⟩, ?_⟩
        apply writeAll_coherent
        subst hk
        simp [ledStep]
    · have hrest : ∃ x ∈ rest, x.key = key ∧ x.lights ≠ (ledStep notes m) key := by
        obtain ⟨x, hx, hxk, hxl⟩ := h
        rcases List.mem_cons.mp hx with rfl | hx
        · exact (hk hxk).elim
        · refine ⟨x, hx, hxk, ?_⟩
          have : ledStep notes m key = notes key := by
            simp [ledStep, Function.update, Ne.symm hk]
          rwa [this]
      split_ifs with hd
      · simp only [List.nil_append]
        exact ih _ leds hrest
      · simp only [List.singleton_append, ledsAfter, List.foldl_cons]
        obtain ⟨⟨x, hx, hxk⟩, h2⟩ := ih (ledStep notes m) (ledStep leds m) hrest
        exact ⟨⟨x, List.mem_cons_of_mem _ hx, hxk⟩, h2⟩

/-! ## LED feedback: what the program hands to the writer -/

theorem mem_of_lookup {α : Type} (l : List (String × α)) (n : String) (k : α)
    (h : l.lookup n = some k) : (n, k) ∈ l := by
  induction l with
  | nil => simp at h
  | cons a rest ih =>
    rcases a with ⟨a1, a2⟩
    by_cases hn : n = a1
    · subst hn
      simp only [List.lookup_cons, beq_self_eq_true, Option.some.injEq] at h
      subst h
      exact List.mem_cons_self _ _
    · have h2 : (n == a1) = false := by simpa using hn
      simp only [List.lookup_cons, h2] at h
      exact List.mem_cons_of_mem _ (ih h)

theorem recordKeys_injective (n1 n2 : String) (k : Nat)
    (h1 : recordKeys.lookup n1 = some k) (h2 : recordKeys.lookup n2 = some k) : n1 = n2 := by
  have key : ∀ a ∈ recordKeys, ∀ b ∈ recordKeys, a.2 = b.2 → a.1 = b.1 := by decide
  exact key _ (mem_of_lookup _ _ _ h1) _ (mem_of_lookup _ _ _ h2) rfl

theorem muteKeys_recordKeys_disjoint (n1 n2 : String) (k : Nat)
    (h1 : muteKeys.lookup n1 = some k) (h2 : recordKeys.lookup n2 = some k) : False := by
  have key : ∀ a ∈ muteKeys, ∀ b ∈ recordKeys, a.2 ≠ b.2 := by decide
  exact key _ (mem_of_lookup _ _ _ h1) _ (mem_of_lookup _ _ _ h2) rfl

theorem recordUpdated_eq (notes : NoteState) (name : String) (present : Bool) :
    recordUpdated notes name present = writeAll notes (recordRequests name present) := by
  unfold recordUpdated recordRequests
  cases recordKeys.lookup name with
  | none => rfl
  | some key => cases present <;> simp [LedOn, LedOff, writeAll]

theorem muteUpdated_eq (notes : NoteState) (name : String) (mute : Bool) :
    muteUpdated notes name mute = writeAll notes (muteRequests name mute) := by
  unfold muteUpdated muteRequests
  cases muteKeys.lookup name with
  | none => rfl
  | some key => cases mute <;> simp [LedOn, LedOff, writeAll]

theorem recordLoop_eq (present : Bool) (names : List String) (notes : NoteState) :
    recordLoop present names notes =
      writeAll notes (names.flatMap (fun name => recordRequests name present)) := by
  induction names generalizing notes with
  | nil => rfl
  | cons name rest ih =>
    simp only [recordLoop, List.flatMap_cons, writeAll_append, recordUpdated_eq, ih]

theorem UpdateRecordingLeds_eq (o : KeyOrders) (notes : NoteState) :
    UpdateRecordingLeds o notes = writeAll notes (sweepRequests o) := by
  simp only [UpdateRecordingLeds, sweepRequests, recordLoop_eq, List.flatMap_append,
    writeAll_append, List.append_assoc]

theorem removedInner_eq (name : String) (paths : List ObjectPath) (path : ObjectPath)
    (rest : List ObjectPath) (notes : NoteState) :
    removedInner name paths path rest notes =
      writeAll notes (rest.flatMap (fun p =>
        if p = path ∧ paths.length = 1 then recordRequests name false ++ muteRequests name false
        else [])) := by
  induction rest generalizing notes with
  | nil => rfl
  | cons p rest ih =>
    unfold removedInner
    split_ifs with h
    · simp only [List.flatMap_cons, if_pos h, writeAll_append, recordUpdated_eq,
        muteUpdated_eq, ih, List.append_assoc]
    · simp only [List.flatMap_cons, if_neg h, List.nil_append, ih]

theorem removedLeds_eq (path : ObjectPath) (m : NameIndex) (notes : NoteState) :
    removedLeds path m notes = writeAll notes (removedRequests m path) := by
  induction m generalizing notes with
  | nil => rfl
  | cons e rest ih =>
    simp only [removedLeds, removedRequests, List.flatMap_cons, writeAll_append,
      removedInner_eq, ih]

theorem mem_recordRequests (name : String) (present : Bool) (m : MidiOut) :
    m ∈ recordRequests name present ↔
      ∃ key, recordKeys.lookup name = some key ∧
        m = if present then .NoteOn key 127 else .NoteOff key := by
  unfold recordRequests
  cases h : recordKeys.lookup name with
  | none => simp
  | some key => cases present <;> simp

theorem mem_muteRequests (name : String) (mute : Bool) (m : MidiOut) :
    m ∈ muteRequests name mute ↔
      ∃ key, muteKeys.lookup name = some key ∧
        m = if mute then .NoteOn key 127 else .NoteOff key := by
  unfold muteRequests
  cases h : muteKeys.lookup name with
  | none => simp
  | some key => cases mute <;> simp

theorem mem_sweep (names : List String) (present : Bool) (m : MidiOut) :
    m ∈ names.flatMap (fun name => recordRequests name present) ↔
      ∃ name ∈ names, ∃ key, recordKeys.lookup name = some key ∧
        m = if present then .NoteOn key 127 else .NoteOff key := by
  simp only [List.mem_flatMap, mem_recordRequests]

theorem mem_removedRequests (m : NameIndex) (path : ObjectPath) (x : MidiOut) :
    x ∈ removedRequests m path ↔
      ∃ e ∈ m, path ∈ e.2 ∧ e.2.length = 1 ∧
        (x ∈ recordRequests e.1 false ∨ x ∈ muteRequests e.1 false) := by
  simp only [removedRequests, List.mem_flatMap]
  constructor
  · rintro ⟨e, he, p, hp, hx⟩
    split_ifs at hx with h
    · obtain ⟨rfl, hl⟩ := h
      exact ⟨e, he, hp, hl, List.mem_append.mp hx⟩
    · simp at hx
  · rintro ⟨e, he, hp, hl, hx⟩
    refine ⟨e, he, path, hp, ?_⟩
    rw [if_pos ⟨rfl, hl⟩]
    exact List.mem_append.mpr hx

/-- The requests of the sweep for the activity LED of a name: a NoteOff always, a
NoteOn (after it) exactly when the name is a key of one of the four maps. -/
theorem sweepRequests_key (o : KeyOrders) (c : PAClient) (ho : o.Admissible c)
    (name : String) (key : Nat) (hk : recordKeys.lookup name = some key) :
    MidiOut.NoteOff key ∈ sweepRequests o ∧
    (inIndex c name → MidiOut.NoteOn key 127 ∈ sweepRequests o) ∧
    (¬ inIndex c name → ∀ m ∈ sweepRequests o, m.key = key → m.lights = false) ∧
    ∀ st : Nat → Bool, (ledsAfter st (sweepRequests o) key = true ↔ inIndex c name) := by
  obtain ⟨h0, h1, h2, h3, h4⟩ := ho
  have hvis : ∀ n, n ∈ o.playbackStreams ++ o.recordStreams ++ o.sinks ++ o.sources ↔
      inIndex c n := by
    intro n
    simp only [inIndex, List.mem_append, h1.mem_iff, h2.mem_iff, h3.mem_iff, h4.mem_iff,
      or_assoc]
  have hoffmem : MidiOut.NoteOff key ∈
      o.record.flatMap (fun name => recordRequests name false) := by
    refine (mem_sweep _ _ _).mpr ⟨name, ?_, key, hk, rfl⟩
    rw [h0.mem_iff]
    exact List.mem_map.mpr ⟨(name, key), mem_of_lookup _ _ _ hk, rfl⟩
  have honmem : inIndex c name → MidiOut.NoteOn key 127 ∈
      (o.playbackStreams ++ o.recordStreams ++ o.sinks ++ o.sources).flatMap
        (fun name => recordRequests name true) := by
    intro hin
    exact (mem_sweep _ _ _).mpr ⟨name, (hvis name).mpr hin, key, hk, rfl⟩
  have hnoon : ¬ inIndex c name →
      ∀ m ∈ (o.playbackStreams ++ o.recordStreams ++ o.sinks ++ o.sources).flatMap
        (fun name => recordRequests name true), m.key ≠ key := by
    intro hnot m hm hmk
    obtain ⟨n2, hn2, k, hk2, rfl⟩ := (mem_sweep _ _ _).mp hm
    simp only [if_true, MidiOut.key] at hmk
    subst hmk
    exact hnot ((hvis name).mp (recordKeys_injective _ _ _ hk hk2 ▸ hn2))
  refine ⟨List.mem_append.mpr (Or.inl hoffmem),
    fun hin => List.mem_append.mpr (Or.inr (honmem hin)), ?_, ?_⟩
  · intro hnot m hm hmk
    rcases List.mem_append.mp hm with hm | hm
    · obtain ⟨_, _, k, _, rfl⟩ := (mem_sweep _ _ _).mp hm
      rfl
    · exact (hnoon hnot m hm hmk).elim
  · intro st
    unfold sweepRequests
    rw [ledsAfter_append]
    have hoff : ledsAfter st (o.record.flatMap (fun name => recordRequests name false)) key
        = false := by
      apply ledsAfter_last
      · intro m hm _
        obtain ⟨_, _, k, _, rfl⟩ := (mem_sweep _ _ _).mp hm
        rfl
      · exact ⟨_, hoffmem, rfl⟩
    constructor
    · intro hon
      by_contra hnot
      rw [ledsAfter_untouched _ _ _ (hnoon hnot), hoff] at hon
      cases hon
    · intro hin
      apply ledsAfter_last
      · intro m hm _
        obtain ⟨_, _, k, _, rfl⟩ := (mem_sweep _ _ _).mp hm
        rfl
      · exact ⟨_, honmem hin, rfl⟩

theorem sweepRequests_mute (o : KeyOrders) (name : String) (key : Nat)
    (hk : muteKeys.lookup name = some key) : ∀ m ∈ sweepRequests o, m.key ≠ key := by
  intro m hm hmk
  rcases List.mem_append.mp hm with hm | hm
  · obtain ⟨n2, _, k, hk2, rfl⟩ := (mem_sweep _ _ _).mp hm
    simp only [MidiOut.key] at hmk
    subst hmk
    exact muteKeys_recordKeys_disjoint _ _ _ hk hk2
  · obtain ⟨n2, _, k, hk2, rfl⟩ := (mem_sweep _ _ _).mp hm
    simp only [if_true, MidiOut.key] at hmk
    subst hmk
    exact muteKeys_recordKeys_disjoint _ _ _ hk hk2

/-- C9, as amended. After `UpdateRecordingLeds`, whatever the LEDs showed and
whatever notes the writer had as running before, and in whatever order the five
loops visit the keys of their maps: the writer has the note of the activity LED of a
name of `recordKeys` as running exactly when the name is a key of one of the four
index maps; the activity LED of a name that is a key of one of the maps is lit; the
activity LED of a name that is a key of none is dark when the writer had its note as
running before the sweep, and shows what it showed before when the writer had not,
the writer dropping the NoteOff; so an activity LED that agreed with the writer's
note before the sweep is lit exactly when its name is a key of one of the maps. No
message of the sweep addresses a mute LED: every mute LED shows what it showed. -/
theorem sweep_sets_activity_leds (o : KeyOrders) (c : PAClient) (ho : o.Admissible c)
    (notes : NoteState) (leds : Nat → Bool) :
    (∀ name key, recordKeys.lookup name = some key →
      ((UpdateRecordingLeds o notes).1 key = true ↔ inIndex c name) ∧
      (inIndex c name → ledsAfter leds (UpdateRecordingLeds o notes).2 key = true) ∧
      (¬ inIndex c name → notes key = true →
        ledsAfter leds (UpdateRecordingLeds o notes).2 key = false) ∧
      (¬ inIndex c name → notes key = false →
        (∀ m ∈ (UpdateRecordingLeds o notes).2, m.key ≠ key) ∧
        ledsAfter leds (UpdateRecordingLeds o notes).2 key = leds key) ∧
      (leds key = notes key →
        (ledsAfter leds (UpdateRecordingLeds o notes).2 key = true ↔ inIndex c name))) ∧
    (∀ name key, muteKeys.lookup name = some key →
      (∀ m ∈ (UpdateRecordingLeds o notes).2, m.key ≠ key) ∧
      ledsAfter leds (UpdateRecordingLeds o notes).2 key = leds key ∧
      (UpdateRecordingLeds o notes).1 key = notes key) := by
  rw [UpdateRecordingLeds_eq]
  constructor
  · intro name key hk
    obtain ⟨hoff, hon, hnone, hstate⟩ := sweepRequests_key o c ho name key hk
    have hw : (writeAll notes (sweepRequests o)).1 key = true ↔ inIndex c name := by
      rw [writeAll_notes]
      exact hstate notes
    refine ⟨hw, ?_, ?_, ?_, ?_⟩
    · intro hin
      have hex : ∃ m ∈ sweepRequests o, m.key = key ∧ m.lights ≠ notes key := by
        by_cases hn : notes key = true
        · exact ⟨_, hoff, rfl, by simp [MidiOut.lights, hn]⟩
        · exact ⟨_, hon hin, rfl, by simpa [MidiOut.lights] using hn⟩
      rw [(writeAll_changed _ notes leds key hex).2]
      exact hw.mpr hin
    · intro hnot hn
      have hex : ∃ m ∈ sweepRequests o, m.key = key ∧ m.lights ≠ notes key :=
        ⟨_, hoff, rfl, by simp [MidiOut.lights, hn]⟩
      rw [(writeAll_changed _ notes leds key hex).2]
      have := hw.not.mpr hnot
      simpa using this
    · intro hnot hn
      have hd := writeAll_dropped (sweepRequests o) notes key
        (fun m hm hmk => by rw [hnone hnot m hm hmk, hn])
      exact ⟨hd, ledsAfter_untouched _ _ _ hd⟩
    · intro hc
      rw [writeAll_coherent _ notes leds key hc]
      exact hw
  · intro name key hk
    have hreq := sweepRequests_mute o name key hk
    have hsent : ∀ m ∈ (writeAll notes (sweepRequests o)).2, m.key ≠ key :=
      fun m hm => hreq m (writeAll_sent_mem _ _ m hm)
    refine ⟨hsent, ledsAfter_untouched _ _ _ hsent, ?_⟩
    rw [writeAll_notes]
    exact ledsAfter_untouched _ _ _ hreq

/-- C9, witness: on the example index, visited in another order than the lists',
with every LED lit by the program before the sweep (the writer has every note as
running), the activity LEDs of Firefox (6) and of the webcam (15) end lit, that of
the Jabra headset (18) ends dark, and the mute LED of Firefox (4) is as it was. -/
theorem sweep_sets_activity_leds_witness :
    demoOrders.Admissible demoClient ∧
    (UpdateRecordingLeds demoOrders (fun _ => true)).2 =
      [.NoteOff 18, .NoteOff 15, .NoteOff 12, .NoteOff 9, .NoteOff 6, .NoteOff 3,
       .NoteOn 3 127, .NoteOn 6 127, .NoteOn 9 127, .NoteOn 15 127] ∧
    ledsAfter (fun _ => true) (UpdateRecordingLeds demoOrders (fun _ => true)).2 6 = true ∧
    ledsAfter (fun _ => true) (UpdateRecordingLeds demoOrders (fun _ => true)).2 15 = true ∧
    ledsAfter (fun _ => true) (UpdateRecordingLeds demoOrders (fun _ => true)).2 18 = false ∧
    ledsAfter (fun _ => true) (UpdateRecordingLeds demoOrders (fun _ => true)).2 4 = true := by
  have ho : demoOrders.Admissible demoClient := by
    refine ⟨by decide, by decide, by decide, by decide, by decide⟩
  have h := sweep_sets_activity_leds demoOrders demoClient ho (fun _ => true) (fun _ => true)
  refine ⟨ho, by decide, ?_, ?_, ?_, ?_⟩
  · exact (h.1 "Firefox" 6 (by decide)).2.1 (by simp [inIndex, demoClient, mapKeys])
  · exact (h.1 "Webcam C270 Mono" 15 (by decide)).2.1 (by simp [inIndex, demoClient, mapKeys])
  · exact (h.1 "Jabra Link 380 Mono" 18 (by decide)).2.2.1
      (by simp [inIndex, demoClient, mapKeys]) rfl
  · exact (h.2 "Firefox" 4 (by decide)).2.1

/-- C9, counterexample. The writer is fresh (it has no note as running) and every
LED is lit, as a previous run left them: the sweep sends NoteOn 3, 6, 9 and 15 and
no NoteOff, and the activity LED 18 of the Jabra headset, a name that is a key of
none of the four maps, is still lit after the sweep. -/
theorem sweep_leaves_led_lit_counterexample :
    demoOrders.Admissible demoClient ∧
    recordKeys.lookup "Jabra Link 380 Mono" = some 18 ∧
    ¬ inIndex demoClient "Jabra Link 380 Mono" ∧
    (UpdateRecordingLeds demoOrders (fun _ => false)).2 =
      [.NoteOn 3 127, .NoteOn 6 127, .NoteOn 9 127, .NoteOn 15 127] ∧
    ledsAfter (fun _ => true) (UpdateRecordingLeds demoOrders (fun _ => false)).2 18 = true := by
  refine ⟨⟨by decide, by decide, by decide, by decide, by decide⟩, by decide,
    by simp [inIndex, demoClient, mapKeys], by decide, by decide⟩

theorem RefreshStreams_calls_head {σ : Type} (env : Env σ) (s : σ) (c : PAClient) :
    ∃ res rest, (RefreshStreams env s c).calls = .ListPath "PlaybackStreams" res :: rest := by
  unfold RefreshStreams
  repeat' split
  all_goals exact ⟨_, _, rfl⟩

/-- C8, as amended. `PlaybackStreamRemoved` makes its LED writes, of which the writer
passes on NoteOff messages only, and then calls `RefreshStreams`, for every path:
the client and the outcome are those of the refresh, and what is sent is the LED
messages followed by the server calls of the refresh, which start with the
enumeration of the playback streams. When the path is the only reference stored
under a name in the playback-stream index, then for the activity LED and the mute
LED the tables give that name: the writer has the note as off afterwards; when it had
the note as running, a NoteOff is sent and the LED is dark afterwards; when it had
not, nothing is sent for the LED, which shows what it showed before. So an LED that
agreed with the writer's note before the call is dark after it. -/
theorem stream_removed_leds_off {σ : Type} (env : Env σ) (s : σ) (c : PAClient)
    (path : ObjectPath) (notes : NoteState) :
    (PlaybackStreamRemoved env s c path notes).refresh = RefreshStreams env s c ∧
    (PlaybackStreamRemoved env s c path notes).notes =
      (removedLeds path c.playbackStreamsByName notes).1 ∧
    (PlaybackStreamRemoved env s c path notes).events =
      (removedLeds path c.playbackStreamsByName notes).2.map Event.midi ++
        (RefreshStreams env s c).calls.map Event.server ∧
    (∃ res rest, (RefreshStreams env s c).calls = .ListPath "PlaybackStreams" res :: rest) ∧
    (∀ m ∈ (removedLeds path c.playbackStreamsByName notes).2, ∃ k, m = .NoteOff k) ∧
    ∀ name, (name, [path]) ∈ c.playbackStreamsByName → ∀ (leds : Nat → Bool) (key : Nat),
      (recordKeys.lookup name = some key ∨ muteKeys.lookup name = some key) →
      (removedLeds path c.playbackStreamsByName notes).1 key = false ∧
      (notes key = true →
        MidiOut.NoteOff key ∈ (removedLeds path c.playbackStreamsByName notes).2 ∧
        ledsAfter leds (removedLeds path c.playbackStreamsByName notes).2 key = false) ∧
      (notes key = false →
        (∀ m ∈ (removedLeds path c.playbackStreamsByName notes).2, m.key ≠ key) ∧
        ledsAfter leds (removedLeds path c.playbackStreamsByName notes).2 key = leds key) ∧
      (leds key = notes key →
        ledsAfter leds (removedLeds path c.playbackStreamsByName notes).2 key = false) := by
  have hreq : ∀ m ∈ removedRequests c.playbackStreamsByName path, ∃ k, m = .NoteOff k := by
    intro m hm
    obtain ⟨e, _, _, _, hx | hx⟩ := (mem_removedRequests _ _ _).mp hm
    · obtain ⟨k, _, rfl⟩ := (mem_recordRequests _ _ _).mp hx
      exact ⟨k, rfl⟩
    · obtain ⟨k, _, rfl⟩ := (mem_muteRequests _ _ _).mp hx
      exact ⟨k, rfl⟩
  have hlights : ∀ m ∈ removedRequests c.playbackStreamsByName path, m.lights = false := by
    intro m hm
    obtain ⟨k, rfl⟩ := hreq m hm
    rfl
  rw [removedLeds_eq]
  have hsent : ∀ m ∈ (writeAll notes (removedRequests c.playbackStreamsByName path)).2,
      ∃ k, m = .NoteOff k := fun m hm => hreq m (writeAll_sent_mem _ _ m hm)
  refine ⟨rfl, by simp [PlaybackStreamRemoved, removedLeds_eq],
    by simp [PlaybackStreamRemoved, removedLeds_eq], RefreshStreams_calls_head env s c,
    hsent, ?_⟩
  intro name hname leds key hkey
  have hmem : MidiOut.NoteOff key ∈ removedRequests c.playbackStreamsByName path := by
    rcases hkey with hk | hk
    · exact (mem_removedRequests _ _ _).mpr ⟨(name, [path]), hname, by simp, rfl,
        Or.inl ((mem_recordRequests _ _ _).mpr ⟨key, hk, rfl⟩)⟩
    · exact (mem_removedRequests _ _ _).mpr ⟨(name, [path]), hname, by simp, rfl,
        Or.inr ((mem_muteRequests _ _ _).mpr ⟨key, hk, rfl⟩)⟩
  have hw : (writeAll notes (removedRequests c.playbackStreamsByName path)).1 key = false := by
    rw [writeAll_notes]
    exact ledsAfter_last _ _ _ _ (fun m hm _ => hlights m hm) ⟨_, hmem, rfl⟩
  refine ⟨hw, ?_, ?_, ?_⟩
  · intro hn
    have hex : ∃ m ∈ removedRequests c.playbackStreamsByName path,
        m.key = key ∧ m.lights ≠ notes key := ⟨_, hmem, rfl, by simp [MidiOut.lights, hn]⟩
    obtain ⟨⟨m, hm, hmk⟩, hled⟩ := writeAll_changed _ notes leds key hex
    refine ⟨?_, by rw [hled, hw]⟩
    obtain ⟨k, rfl⟩ := hsent m hm
    simp only [MidiOut.key] at hmk
    subst hmk
    exact hm
  · intro hn
    have hd := writeAll_dropped (removedRequests c.playbackStreamsByName path) notes key
      (fun m hm _ => by rw [hlights m hm, hn])
    exact ⟨hd, ledsAfter_untouched _ _ _ hd⟩
  · intro hc
    rw [writeAll_coherent _ notes leds key hc, hw]

/-- C8, witness: `/stream1` is the only stream of spotify and the program has lit
every LED (the writer has every note as running); on the removal of `/stream1` the
activity LED 3 and the mute LED 1 get a NoteOff and are dark, then the refresh
enumerates the playback streams. With `/stream0`, one of two streams of Firefox, no
LED is written and the refresh is made all the same. -/
theorem stream_removed_leds_off_witness :
    ("spotify", ["/stream1"]) ∈ demoClient.playbackStreamsByName ∧
    (PlaybackStreamRemoved (demoEnv ["PlaybackStreams"] [] []) () demoClient "/stream1"
      (fun _ => true)).events =
      [.midi (.NoteOff 3), .midi (.NoteOff 1),
       .server (.ListPath "PlaybackStreams" (.error "enumeration failed"))] ∧
    (PlaybackStreamRemoved (demoEnv ["PlaybackStreams"] [] []) () demoClient "/stream0"
      (fun _ => true)).events =
      [.server (.ListPath "PlaybackStreams" (.error "enumeration failed"))] ∧
    ledsAfter (fun _ => true)
      (removedLeds "/stream1" demoClient.playbackStreamsByName (fun _ => true)).2 3 = false ∧
    ledsAfter (fun _ => true)
      (removedLeds "/stream1" demoClient.playbackStreamsByName (fun _ => true)).2 1 = false :=
  ⟨by decide, by decide, by decide,
    ((stream_removed_leds_off (demoEnv ["PlaybackStreams"] [] []) () demoClient "/stream1"
      (fun _ => true)).2.2.2.2.2 "spotify" (by decide) (fun _ => true) 3
      (Or.inl (by decide))).2.2.2 rfl,
    ((stream_removed_leds_off (demoEnv ["PlaybackStreams"] [] []) () demoClient "/stream1"
      (fun _ => true)).2.2.2.2.2 "spotify" (by decide) (fun _ => true) 1
      (Or.inr (by decide))).2.2.2 rfl⟩

/-- C8, counterexample. The writer is fresh (it has no note as running) and the
LEDs are lit, as a previous run left them; `/stream1` is the only stream of spotify.
On its removal nothing is sent to the controller but the refresh is made: the
activity LED 3 and the mute LED 1 of spotify are still lit. -/
theorem stream_removed_leds_counterexample :
    ("spotify", ["/stream1"]) ∈ demoClient.playbackStreamsByName ∧
    recordKeys.lookup "spotify" = some 3 ∧ muteKeys.lookup "spotify" = some 1 ∧
    (PlaybackStreamRemoved (demoEnv ["PlaybackStreams"] [] []) () demoClient "/stream1"
      (fun _ => false)).events =
      [.server (.ListPath "PlaybackStreams" (.error "enumeration failed"))] ∧
    ledsAfter (fun _ => true)
      (removedLeds "/stream1" demoClient.playbackStreamsByName (fun _ => false)).2 3 = true ∧
    ledsAfter (fun _ => true)
      (removedLeds "/stream1" demoClient.playbackStreamsByName (fun _ => false)).2 1 = true := by
  refine ⟨by decide, by decide, by decide, by decide, by decide, by decide⟩

end Pamidicontrol
